import Mathlib

/-!
Shallow embedding of the meal-prep rotation scheduler of `src/main.py`
(class `MealPrepCalendarGenerator`).  The embedded core covers:

* the four-tier conflict-avoiding selection
  `get_next_recipe_avoiding_conflict` (main.py lines 415-444),
* the day-by-day lunch/dinner loop of `create_meal_prep_calendar`
  (lines 446-623), including forced first urls, the one-day start shift,
  the prep / meal event emission and the allergy cache, and
* the overflow extension past the nominal horizon (lines 625-670).

Randomness (`random.choice` on a generator seeded once per run) is
modelled as an explicit stream of draws `rng : Nat → Nat` consumed at a
counter `k` threaded through the run; a draw `n` on a candidate list `l`
picks index `n % l.length`, so every index is reachable and a fixed
stream makes the run a pure function of its inputs.  The external
collaborators (title scraping via `extract_title`, allergen annotation
via `extract_recipe_content` / `check_allergies_and_get_substitutes`)
are modelled as opaque lookups recorded in an append-only log keyed by
url, exactly at the call sites where the source invokes them.  Calendar
dates are integers (days); `datetime + timedelta(days = n)` is `+ n`.
Recipe lifespans (`days`) are natural numbers; the input contract of the
program (`lifespanDays : integer ≥ 1`) keeps the truncated `Nat`
subtraction in the embedding in step with Python's integer arithmetic.
-/

namespace MealPrep

structure Recipe where
  url : String
  days : Nat
deriving DecidableEq

inductive Slot
  | lunch
  | dinner
deriving DecidableEq

inductive EvKind
  | meal
  | prep
deriving DecidableEq

/-- One emitted calendar record: `day` is the loop index from schedule
start, `date` the (integer) calendar date written on the record,
`isNew` whether the record belongs to the day the recipe was newly
assigned to the slot. -/
structure Event where
  kind : EvKind
  slot : Slot
  day : Nat
  date : Int
  recipe : Recipe
  isNew : Bool
deriving DecidableEq

inductive LkKind
  | title
  | annotate
deriving DecidableEq

/-- A record of one invocation of an external lookup (title resolution
or allergen annotation) for a url. -/
structure Lookup where
  kind : LkKind
  url : String
deriving DecidableEq

/-- Per-slot scheduler state: `current_lunch_recipe` / `lunch_days_remaining` /
`prev_lunch_url` / `lunch_used_recent` of main.py lines 460-472 (and the
dinner counterparts). -/
structure SlotState where
  current : Option Recipe
  remaining : Nat
  prevUrl : Option String
  usedRecent : List String
deriving DecidableEq

/-- Inputs of one run of `create_meal_prep_calendar`: the (already
shuffled) recipe list, week count, caller start date, forced first urls,
whether an allergy list is present, and the seeded random stream. -/
structure Config where
  recipes : List Recipe
  num_weeks : Nat
  start_date : Int
  first_lunch_url : Option String
  first_dinner_url : Option String
  hasAllergies : Bool
  rng : Nat → Nat

structure RunState where
  lunch : SlotState
  dinner : SlotState
  events : List Event
  lookups : List Lookup
  cache : List String
  k : Nat
deriving DecidableEq

/-- The fatal configuration failures of the run (spec §7): too few
recipes (line 455), a forced first url absent from the pool (lines
485-488 and 557-560).  `emptyPoolChoice` models `random.choice` on an
empty list and `noCurrentRecipe` a `None` slot occupant; both are
unreachable from a checked configuration. -/
inductive ConfigurationError
  | needAtLeastTwoRecipes
  | firstLunchUrlNotFound
  | firstDinnerUrlNotFound
  | emptyPoolChoice
  | noCurrentRecipe
deriving DecidableEq

/-- `lunch_used_recent[-2:]` (main.py lines 492 and 564). -/
def lastTwo (l : List String) : List String := l.drop (l.length - 2)

/-- Level 1 (main.py lines 421-424): avoid previous, recent, and
conflicting urls.  A `none` previous/conflicting url never excludes a
candidate, as in Python where `url != None` is true. -/
def level1_options (recipes : List Recipe) (prev_url : Option String)
    (used_recent : List String) (conflicting_url : Option String) : List Recipe :=
  recipes.filter (fun r =>
    decide (prev_url ≠ some r.url ∧ r.url ∉ used_recent ∧ conflicting_url ≠ some r.url))

/-- Level 2 (main.py lines 427-429): avoid previous and conflicting urls. -/
def level2_options (recipes : List Recipe) (prev_url : Option String)
    (conflicting_url : Option String) : List Recipe :=
  recipes.filter (fun r => decide (prev_url ≠ some r.url ∧ conflicting_url ≠ some r.url))

/-- Level 3 (main.py lines 432-433): just avoid the conflicting url. -/
def level3_options (recipes : List Recipe) (conflicting_url : Option String) : List Recipe :=
  recipes.filter (fun r => decide (conflicting_url ≠ some r.url))

/-- One uniform draw: `random.choice(l)` under the draw value `n`. -/
def pickUniform (n : Nat) (l : List Recipe) : Option Recipe :=
  l[n % l.length]?

/-- `get_next_recipe_avoiding_conflict` (main.py lines 415-444): try the
levels in order, pick uniformly from the first non-empty one, last
resort the whole pool. -/
def get_next_recipe_avoiding_conflict (recipes : List Recipe) (prev_url : Option String)
    (used_recent : List String) (conflicting_url : Option String) (n : Nat) : Option Recipe :=
  if level1_options recipes prev_url used_recent conflicting_url ≠ [] then
    pickUniform n (level1_options recipes prev_url used_recent conflicting_url)
  else if level2_options recipes prev_url conflicting_url ≠ [] then
    pickUniform n (level2_options recipes prev_url conflicting_url)
  else if level3_options recipes conflicting_url ≠ [] then
    pickUniform n (level3_options recipes conflicting_url)
  else
    pickUniform n recipes

/-- The first non-empty level examined by
`get_next_recipe_avoiding_conflict` (level 4 being the whole pool). -/
def firstNonemptyTier (recipes : List Recipe) (prev_url : Option String)
    (used_recent : List String) (conflicting_url : Option String) : List Recipe :=
  if level1_options recipes prev_url used_recent conflicting_url ≠ [] then
    level1_options recipes prev_url used_recent conflicting_url
  else if level2_options recipes prev_url conflicting_url ≠ [] then
    level2_options recipes prev_url conflicting_url
  else if level3_options recipes conflicting_url ≠ [] then
    level3_options recipes conflicting_url
  else
    recipes

/-- Start date pushed forward by one day (main.py lines 450-454). -/
def shiftedStart (cfg : Config) : Int := cfg.start_date + 1

/-- `meal_date = current_date + timedelta(days=day)` (line 479). -/
def mealDate (cfg : Config) (day : Nat) : Int := shiftedStart cfg + (day : Int)

/-- Prep date: previous day unless day 0 (lines 517-520 and 589-592). -/
def prepDate (cfg : Config) (day : Nat) : Int :=
  if 0 < day then shiftedStart cfg + (day : Int) - 1 else mealDate cfg day

/-- Conflicting url for a lunch selection: the dinner recipe still
active from the prior day's processing (line 493). -/
def lunchConflictUrl (s : RunState) : Option String :=
  s.dinner.current.map (fun r => r.url)

/-- Conflicting url for a dinner selection: the lunch recipe of the same
day, already resolved (line 565). -/
def dinnerConflictUrl (s : RunState) : Option String :=
  s.lunch.current.map (fun r => r.url)

/-- A selection draw for the lunch slot (lines 491-494), consuming one
value of the random stream. -/
def lunchSelect (cfg : Config) (s : RunState) : Except ConfigurationError (Recipe × Nat) :=
  match get_next_recipe_avoiding_conflict cfg.recipes s.lunch.prevUrl
      (lastTwo s.lunch.usedRecent) (lunchConflictUrl s) (cfg.rng s.k) with
  | some r => .ok (r, s.k + 1)
  | none => .error .emptyPoolChoice

def dinnerSelect (cfg : Config) (s : RunState) : Except ConfigurationError (Recipe × Nat) :=
  match get_next_recipe_avoiding_conflict cfg.recipes s.dinner.prevUrl
      (lastTwo s.dinner.usedRecent) (dinnerConflictUrl s) (cfg.rng s.k) with
  | some r => .ok (r, s.k + 1)
  | none => .error .emptyPoolChoice

/-- Choice of the recipe for a fresh lunch assignment (lines 484-494):
on day 0 a forced first url bypasses selection and is looked up with
`next(r for r in recipes if r['url'] == first_lunch_url)`, failing the
run when absent; otherwise `get_next_recipe_avoiding_conflict`. -/
def lunchAssign (cfg : Config) (day : Nat) (s : RunState) :
    Except ConfigurationError (Recipe × Nat) :=
  if day = 0 then
    match cfg.first_lunch_url with
    | some u =>
      match cfg.recipes.find? (fun r => r.url == u) with
      | some r => .ok (r, s.k)
      | none => .error .firstLunchUrlNotFound
    | none => lunchSelect cfg s
  else lunchSelect cfg s

def dinnerAssign (cfg : Config) (day : Nat) (s : RunState) :
    Except ConfigurationError (Recipe × Nat) :=
  if day = 0 then
    match cfg.first_dinner_url with
    | some u =>
      match cfg.recipes.find? (fun r => r.url == u) with
      | some r => .ok (r, s.k)
      | none => .error .firstDinnerUrlNotFound
    | none => dinnerSelect cfg s
  else dinnerSelect cfg s

/-- Shared tail of the lunch block (lines 534-551): resolve the title of
the active recipe again, emit the lunch meal event for the day and
decrement the remaining-days counter.  `isNew` records whether this
day's processing freshly assigned the recipe. -/
def lunchEmit (cfg : Config) (day : Nat) (s : RunState) (isNew : Bool) :
    Except ConfigurationError RunState :=
  match s.lunch.current with
  | none => .error .noCurrentRecipe
  | some cur =>
    .ok { s with
      lunch := { s.lunch with remaining := s.lunch.remaining - 1 },
      lookups := s.lookups ++ [⟨.title, cur.url⟩],
      events := s.events ++ [⟨.meal, .lunch, day, mealDate cfg day, cur, isNew⟩] }

def dinnerEmit (cfg : Config) (day : Nat) (s : RunState) (isNew : Bool) :
    Except ConfigurationError RunState :=
  match s.dinner.current with
  | none => .error .noCurrentRecipe
  | some cur =>
    .ok { s with
      dinner := { s.dinner with remaining := s.dinner.remaining - 1 },
      lookups := s.lookups ++ [⟨.title, cur.url⟩],
      events := s.events ++ [⟨.meal, .dinner, day, mealDate cfg day, cur, isNew⟩] }

/-- LUNCH PROCESSING for one day (lines 482-551).  When the counter has
drained, a recipe is assigned: slot state updated (lines 496-499), its
title resolved (line 502), the allergy annotation performed once per
uncached url when an allergy list is present (lines 505-512), the prep
event emitted (lines 516-532); then the shared meal emission runs. -/
def lunchStep (cfg : Config) (day : Nat) (s : RunState) :
    Except ConfigurationError RunState :=
  if s.lunch.remaining = 0 then
    match lunchAssign cfg day s with
    | .error e => .error e
    | .ok (r, k2) =>
      lunchEmit cfg day
        { s with
          lunch := { current := some r, remaining := r.days,
                     prevUrl := some r.url,
                     usedRecent := s.lunch.usedRecent ++ [r.url] },
          lookups := s.lookups ++ [⟨.title, r.url⟩] ++
            (if cfg.hasAllergies ∧ r.url ∉ s.cache then [⟨.annotate, r.url⟩] else []),
          cache := s.cache ++
            (if cfg.hasAllergies ∧ r.url ∉ s.cache then [r.url] else []),
          events := s.events ++ [⟨.prep, .lunch, day, prepDate cfg day, r, true⟩],
          k := k2 }
        true
  else
    lunchEmit cfg day s false

/-- DINNER PROCESSING for one day (lines 553-623), mirroring the lunch
block with the conflict taken from the lunch recipe just resolved. -/
def dinnerStep (cfg : Config) (day : Nat) (s : RunState) :
    Except ConfigurationError RunState :=
  if s.dinner.remaining = 0 then
    match dinnerAssign cfg day s with
    | .error e => .error e
    | .ok (r, k2) =>
      dinnerEmit cfg day
        { s with
          dinner := { current := some r, remaining := r.days,
                      prevUrl := some r.url,
                      usedRecent := s.dinner.usedRecent ++ [r.url] },
          lookups := s.lookups ++ [⟨.title, r.url⟩] ++
            (if cfg.hasAllergies ∧ r.url ∉ s.cache then [⟨.annotate, r.url⟩] else []),
          cache := s.cache ++
            (if cfg.hasAllergies ∧ r.url ∉ s.cache then [r.url] else []),
          events := s.events ++ [⟨.prep, .dinner, day, prepDate cfg day, r, true⟩],
          k := k2 }
        true
  else
    dinnerEmit cfg day s false

/-- One iteration of the day loop (line 478): lunch resolved first, then
dinner on the updated state. -/
def dayStep (cfg : Config) (day : Nat) (s : RunState) :
    Except ConfigurationError RunState :=
  (lunchStep cfg day s).bind (dinnerStep cfg day)

/-- `for day in range(total_days)` unrolled: run `n` day steps starting
at day index `d`. -/
def daysLoop (cfg : Config) : Nat → Nat → RunState → Except ConfigurationError RunState
  | 0, _, s => .ok s
  | n + 1, d, s => (dayStep cfg d s).bind (daysLoop cfg n (d + 1))

def totalDays (cfg : Config) : Nat := cfg.num_weeks * 7

def initSlot : SlotState :=
  { current := none, remaining := 0, prevUrl := none, usedRecent := [] }

def initState : RunState :=
  { lunch := initSlot, dinner := initSlot, events := [], lookups := [],
    cache := [], k := 0 }

/-- Overflow loop body (lines 629-670): `fuel` iterations (one per entry
of `range(max_overflow)`), each emitting a continuation meal event and a
title lookup for every slot whose counter is still positive, then
decrementing those counters. -/
def overflowGo (cfg : Config) (lr dr : Recipe) :
    Nat → Nat → Nat → Nat → List Event × List Lookup
  | 0, _, _, _ => ([], [])
  | fuel + 1, lrem, drem, d =>
    let le : List Event :=
      if 0 < lrem then [⟨.meal, .lunch, d, mealDate cfg d, lr, false⟩] else []
    let ll : List Lookup := if 0 < lrem then [⟨.title, lr.url⟩] else []
    let de : List Event :=
      if 0 < drem then [⟨.meal, .dinner, d, mealDate cfg d, dr, false⟩] else []
    let dl : List Lookup := if 0 < drem then [⟨.title, dr.url⟩] else []
    let rest := overflowGo cfg lr dr fuel (lrem - 1) (drem - 1) (d + 1)
    (le ++ de ++ rest.1, ll ++ dl ++ rest.2)

/-- Overflow handling (lines 625-670): runs only when a slot still has
remaining days; a slot with a positive counter always carries a current
recipe after a non-empty horizon, so the wildcard arm is unreachable. -/
def overflowPart (cfg : Config) (s : RunState) : List Event × List Lookup :=
  if 0 < s.lunch.remaining ∨ 0 < s.dinner.remaining then
    match s.lunch.current, s.dinner.current with
    | some lr, some dr =>
      overflowGo cfg lr dr (max s.lunch.remaining s.dinner.remaining)
        s.lunch.remaining s.dinner.remaining (totalDays cfg)
    | _, _ => ([], [])
  else ([], [])

/-- `create_meal_prep_calendar` (lines 446-687): reject a pool of fewer
than two recipes (lines 455-457), run the day loop over the nominal
horizon, then the overflow extension, and return the ordered event
stream together with the external-lookup log. -/
def create_meal_prep_calendar (cfg : Config) :
    Except ConfigurationError (List Event × List Lookup) :=
  if cfg.recipes.length < 2 then .error .needAtLeastTwoRecipes
  else
    match daysLoop cfg (totalDays cfg) 0 initState with
    | .error e => .error e
    | .ok s =>
      .ok (s.events ++ (overflowPart cfg s).1, s.lookups ++ (overflowPart cfg s).2)

/-- The event stream of a run (empty when the run aborts). -/
def runEvents (cfg : Config) : List Event :=
  match create_meal_prep_calendar cfg with
  | .ok (evs, _) => evs
  | .error _ => []

/-- The external-lookup log of a run (empty when the run aborts). -/
def runLookups (cfg : Config) : List Lookup :=
  match create_meal_prep_calendar cfg with
  | .ok (_, lks) => lks
  | .error _ => []

/-- Whether the run completed without a configuration failure. -/
def runOk (cfg : Config) : Bool :=
  match create_meal_prep_calendar cfg with
  | .ok _ => true
  | .error _ => false

/-- The state of the run after its first `j` days. -/
def loopState (cfg : Config) (j : Nat) : Except ConfigurationError RunState :=
  daysLoop cfg j 0 initState

/-- Number of meal events of a slot on a day in an event list. -/
def countMeal (evs : List Event) (sl : Slot) (d : Nat) : Nat :=
  (evs.filter (fun e => decide (e.kind = .meal ∧ e.slot = sl ∧ e.day = d))).length

/-- `random.seed(seed)` followed by successive draws: a linear
congruential stream, one fixed generator per run. -/
def lcg (n : Nat) : Nat := (1103515245 * n + 12345) % 2147483648

def seedStream (seed : Nat) (k : Nat) : Nat := lcg^[k + 1] seed

/-! ### Selection lemmas -/

theorem pickUniform_some (n : Nat) (l : List Recipe) (h : l ≠ []) :
    ∃ r, pickUniform n l = some r ∧ r ∈ l := by
  have hlen : 0 < l.length := List.length_pos.mpr h
  have hm : n % l.length < l.length := Nat.mod_lt _ hlen
  exact ⟨l[n % l.length], by simp [pickUniform, List.getElem?_eq_getElem hm],
    List.getElem_mem hm⟩

theorem pickUniform_mem (n : Nat) (l : List Recipe) (r : Recipe)
    (h : pickUniform n l = some r) : r ∈ l := by
  unfold pickUniform at h
  exact List.getElem?_mem h

theorem pickUniform_surj (l : List Recipe) (r : Recipe) (h : r ∈ l) :
    ∃ n, pickUniform n l = some r := by
  obtain ⟨i, hi, rfl⟩ := List.mem_iff_getElem.mp h
  exact ⟨i, by simp [pickUniform, Nat.mod_eq_of_lt hi, List.getElem?_eq_getElem hi]⟩

theorem level1_mem (recipes : List Recipe) (p : Option String) (u : List String)
    (c : Option String) (r : Recipe) :
    r ∈ level1_options recipes p u c ↔
      r ∈ recipes ∧ p ≠ some r.url ∧ r.url ∉ u ∧ c ≠ some r.url := by
  simp [level1_options]

theorem level2_mem (recipes : List Recipe) (p : Option String)
    (c : Option String) (r : Recipe) :
    r ∈ level2_options recipes p c ↔
      r ∈ recipes ∧ p ≠ some r.url ∧ c ≠ some r.url := by
  simp [level2_options]

theorem level3_mem (recipes : List Recipe) (c : Option String) (r : Recipe) :
    r ∈ level3_options recipes c ↔ r ∈ recipes ∧ c ≠ some r.url := by
  simp [level3_options]

theorem getNext_eq_pick (recipes : List Recipe) (p : Option String) (u : List String)
    (c : Option String) (n : Nat) :
    get_next_recipe_avoiding_conflict recipes p u c n
      = pickUniform n (firstNonemptyTier recipes p u c) := by
  unfold get_next_recipe_avoiding_conflict firstNonemptyTier
  split_ifs <;> rfl

theorem firstNonemptyTier_subset (recipes : List Recipe) (p : Option String)
    (u : List String) (c : Option String) :
    firstNonemptyTier recipes p u c ⊆ recipes := by
  unfold firstNonemptyTier
  split_ifs with h1 h2 h3
  · exact fun r hr => ((level1_mem _ _ _ _ _).mp hr).1
  · exact fun r hr => ((level2_mem _ _ _ _).mp hr).1
  · exact fun r hr => ((level3_mem _ _ _).mp hr).1
  · exact fun _ h => h

theorem firstNonemptyTier_ne_nil (recipes : List Recipe) (p : Option String)
    (u : List String) (c : Option String) (h : recipes ≠ []) :
    firstNonemptyTier recipes p u c ≠ [] := by
  unfold firstNonemptyTier
  split_ifs <;> assumption

theorem getNext_mem (recipes : List Recipe) (p : Option String) (u : List String)
    (c : Option String) (n : Nat) (r : Recipe)
    (h : get_next_recipe_avoiding_conflict recipes p u c n = some r) : r ∈ recipes := by
  rw [getNext_eq_pick] at h
  exact firstNonemptyTier_subset recipes p u c (pickUniform_mem _ _ _ h)

theorem getNext_isSome (recipes : List Recipe) (p : Option String) (u : List String)
    (c : Option String) (n : Nat) (h : recipes ≠ []) :
    ∃ r, get_next_recipe_avoiding_conflict recipes p u c n = some r ∧ r ∈ recipes := by
  rw [getNext_eq_pick]
  obtain ⟨r, hr, hmem⟩ :=
    pickUniform_some n (firstNonemptyTier recipes p u c) (firstNonemptyTier_ne_nil _ _ _ _ h)
  exact ⟨r, hr, firstNonemptyTier_subset recipes p u c hmem⟩

/-- The key conflict-avoidance property of the tiered selection: as long
as some pool recipe avoids the conflicting url, the selected recipe does
(all of levels 1-3 exclude it, and level 4 is only reached when level 3
is empty). -/
theorem getNext_avoids (recipes : List Recipe) (p : Option String) (u : List String)
    (c : Option String) (n : Nat) (r : Recipe)
    (hwit : ∃ r0 ∈ recipes, c ≠ some r0.url)
    (h : get_next_recipe_avoiding_conflict recipes p u c n = some r) :
    c ≠ some r.url := by
  obtain ⟨r0, hr0, hc0⟩ := hwit
  have hlevel3 : level3_options recipes c ≠ [] := by
    intro hnil
    have : r0 ∈ level3_options recipes c := (level3_mem recipes c r0).mpr ⟨hr0, hc0⟩
    simp [hnil] at this
  unfold get_next_recipe_avoiding_conflict at h
  split_ifs at h with h1 h2
  · exact ((level1_mem _ _ _ _ _).mp (pickUniform_mem _ _ _ h)).2.2.2
  · exact ((level2_mem _ _ _ _).mp (pickUniform_mem _ _ _ h)).2.2
  · exact ((level3_mem _ _ _).mp (pickUniform_mem _ _ _ h)).2

/-! ### One-step equations -/

/-- Result state of a lunch retention day (counter still positive). -/
def lunchRetainState (cfg : Config) (day : Nat) (s : RunState) (cur : Recipe) : RunState :=
  { s with
    lunch := { s.lunch with remaining := s.lunch.remaining - 1 },
    lookups := s.lookups ++ [⟨.title, cur.url⟩],
    events := s.events ++ [⟨.meal, .lunch, day, mealDate cfg day, cur, false⟩] }

/-- Result state of a fresh lunch assignment of recipe `r` with updated
draw counter `k2`. -/
def lunchAssignState (cfg : Config) (day : Nat) (s : RunState) (r : Recipe) (k2 : Nat) :
    RunState :=
  { s with
    lunch := { current := some r, remaining := r.days - 1, prevUrl := some r.url,
               usedRecent := s.lunch.usedRecent ++ [r.url] },
    lookups := s.lookups ++ [⟨.title, r.url⟩] ++
      (if cfg.hasAllergies ∧ r.url ∉ s.cache then [⟨.annotate, r.url⟩] else []) ++
      [⟨.title, r.url⟩],
    cache := s.cache ++ (if cfg.hasAllergies ∧ r.url ∉ s.cache then [r.url] else []),
    events := s.events ++ [⟨.prep, .lunch, day, prepDate cfg day, r, true⟩,
                           ⟨.meal, .lunch, day, mealDate cfg day, r, true⟩],
    k := k2 }

def dinnerRetainState (cfg : Config) (day : Nat) (s : RunState) (cur : Recipe) : RunState :=
  { s with
    dinner := { s.dinner with remaining := s.dinner.remaining - 1 },
    lookups := s.lookups ++ [⟨.title, cur.url⟩],
    events := s.events ++ [⟨.meal, .dinner, day, mealDate cfg day, cur, false⟩] }

def dinnerAssignState (cfg : Config) (day : Nat) (s : RunState) (r : Recipe) (k2 : Nat) :
    RunState :=
  { s with
    dinner := { current := some r, remaining := r.days - 1, prevUrl := some r.url,
                usedRecent := s.dinner.usedRecent ++ [r.url] },
    lookups := s.lookups ++ [⟨.title, r.url⟩] ++
      (if cfg.hasAllergies ∧ r.url ∉ s.cache then [⟨.annotate, r.url⟩] else []) ++
      [⟨.title, r.url⟩],
    cache := s.cache ++ (if cfg.hasAllergies ∧ r.url ∉ s.cache then [r.url] else []),
    events := s.events ++ [⟨.prep, .dinner, day, prepDate cfg day, r, true⟩,
                           ⟨.meal, .dinner, day, mealDate cfg day, r, true⟩],
    k := k2 }

theorem lunchStep_retain_eq (cfg : Config) (day : Nat) (s : RunState) (cur : Recipe)
    (hr : s.lunch.remaining ≠ 0) (hc : s.lunch.current = some cur) :
    lunchStep cfg day s = .ok (lunchRetainState cfg day s cur) := by
  simp [lunchStep, hr, lunchEmit, hc, lunchRetainState]

theorem lunchStep_assign_eq (cfg : Config) (day : Nat) (s : RunState) (r : Recipe) (k2 : Nat)
    (hr : s.lunch.remaining = 0) (ha : lunchAssign cfg day s = .ok (r, k2)) :
    lunchStep cfg day s = .ok (lunchAssignState cfg day s r k2) := by
  simp [lunchStep, hr, ha, lunchEmit, lunchAssignState]

theorem dinnerStep_retain_eq (cfg : Config) (day : Nat) (s : RunState) (cur : Recipe)
    (hr : s.dinner.remaining ≠ 0) (hc : s.dinner.current = some cur) :
    dinnerStep cfg day s = .ok (dinnerRetainState cfg day s cur) := by
  simp [dinnerStep, hr, dinnerEmit, hc, dinnerRetainState]

theorem dinnerStep_assign_eq (cfg : Config) (day : Nat) (s : RunState) (r : Recipe) (k2 : Nat)
    (hr : s.dinner.remaining = 0) (ha : dinnerAssign cfg day s = .ok (r, k2)) :
    dinnerStep cfg day s = .ok (dinnerAssignState cfg day s r k2) := by
  simp [dinnerStep, hr, ha, dinnerEmit, dinnerAssignState]

theorem lunchStep_ok_cases (cfg : Config) (day : Nat) (s s1 : RunState)
    (h : lunchStep cfg day s = .ok s1) :
    (∃ cur, s.lunch.remaining ≠ 0 ∧ s.lunch.current = some cur ∧
      s1 = lunchRetainState cfg day s cur) ∨
    (∃ r k2, s.lunch.remaining = 0 ∧ lunchAssign cfg day s = .ok (r, k2) ∧
      s1 = lunchAssignState cfg day s r k2) := by
  by_cases hr : s.lunch.remaining = 0
  · right
    cases ha : lunchAssign cfg day s with
    | error e => simp [lunchStep, hr, ha] at h
    | ok p =>
      obtain ⟨r, k2⟩ := p
      refine ⟨r, k2, hr, rfl, ?_⟩
      rw [lunchStep_assign_eq cfg day s r k2 hr ha] at h
      exact (Except.ok.inj h).symm
  · left
    cases hc : s.lunch.current with
    | none => simp [lunchStep, hr, lunchEmit, hc] at h
    | some cur =>
      refine ⟨cur, hr, rfl, ?_⟩
      rw [lunchStep_retain_eq cfg day s cur hr hc] at h
      exact (Except.ok.inj h).symm

theorem dinnerStep_ok_cases (cfg : Config) (day : Nat) (s s1 : RunState)
    (h : dinnerStep cfg day s = .ok s1) :
    (∃ cur, s.dinner.remaining ≠ 0 ∧ s.dinner.current = some cur ∧
      s1 = dinnerRetainState cfg day s cur) ∨
    (∃ r k2, s.dinner.remaining = 0 ∧ dinnerAssign cfg day s = .ok (r, k2) ∧
      s1 = dinnerAssignState cfg day s r k2) := by
  by_cases hr : s.dinner.remaining = 0
  · right
    cases ha : dinnerAssign cfg day s with
    | error e => simp [dinnerStep, hr, ha] at h
    | ok p =>
      obtain ⟨r, k2⟩ := p
      refine ⟨r, k2, hr, rfl, ?_⟩
      rw [dinnerStep_assign_eq cfg day s r k2 hr ha] at h
      exact (Except.ok.inj h).symm
  · left
    cases hc : s.dinner.current with
    | none => simp [dinnerStep, hr, dinnerEmit, hc] at h
    | some cur =>
      refine ⟨cur, hr, rfl, ?_⟩
      rw [dinnerStep_retain_eq cfg day s cur hr hc] at h
      exact (Except.ok.inj h).symm

theorem dayStep_ok_split (cfg : Config) (day : Nat) (s s1 : RunState)
    (h : dayStep cfg day s = .ok s1) :
    ∃ smid, lunchStep cfg day s = .ok smid ∧ dinnerStep cfg day smid = .ok s1 := by
  unfold dayStep at h
  cases hl : lunchStep cfg day s with
  | error e => rw [hl] at h; exact absurd h (by simp [Except.bind])
  | ok smid => exact ⟨smid, rfl, by rwa [hl] at h⟩

/-! ### Loop decomposition -/

theorem daysLoop_add (cfg : Config) (a b d : Nat) (s : RunState) :
    daysLoop cfg (a + b) d s
      = (daysLoop cfg a d s).bind (fun s2 => daysLoop cfg b (d + a) s2) := by
  induction a generalizing d s with
  | zero =>
    simp only [Nat.add_zero, Nat.zero_add] at *
    simp [daysLoop, Except.bind]
  | succ n ih =>
    have h1 : n + 1 + b = (n + b) + 1 := by omega
    rw [h1]
    simp only [daysLoop]
    cases dayStep cfg d s with
    | error e => simp [Except.bind]
    | ok s2 =>
      simp only [Except.bind]
      rw [ih (d + 1) s2]
      have h2 : d + 1 + n = d + (n + 1) := by omega
      simp only [h2]
      cases daysLoop cfg n (d + 1) s2 <;> simp [Except.bind]

theorem loopState_le_ok (cfg : Config) (j T : Nat) (sT : RunState) (hle : j ≤ T)
    (h : loopState cfg T = .ok sT) : ∃ sj, loopState cfg j = .ok sj := by
  obtain ⟨m, rfl⟩ := Nat.exists_eq_add_of_le hle
  unfold loopState at *
  rw [daysLoop_add cfg j m 0 initState] at h
  cases hj : daysLoop cfg j 0 initState with
  | error e => rw [hj] at h; simp [Except.bind] at h
  | ok sj => exact ⟨sj, rfl⟩

theorem loopState_tail (cfg : Config) (j m : Nat) (sj sT : RunState)
    (hj : loopState cfg j = .ok sj) (hT : loopState cfg (j + m) = .ok sT) :
    daysLoop cfg m j sj = .ok sT := by
  unfold loopState at *
  rw [daysLoop_add cfg j m 0 initState, hj] at hT
  simpa [Except.bind] using hT

theorem loopState_succ_eq (cfg : Config) (j : Nat) (sj : RunState)
    (hj : loopState cfg j = .ok sj) :
    loopState cfg (j + 1) = dayStep cfg j sj := by
  unfold loopState at *
  rw [daysLoop_add cfg j 1 0 initState, hj]
  simp only [Except.bind, Nat.zero_add]
  simp only [daysLoop]
  cases dayStep cfg j sj with
  | error e => simp [Except.bind]
  | ok s2 => simp [Except.bind, daysLoop]

/-! ### Day-step characterization -/

def mealsOf (l : List Event) : List Event := l.filter (fun e => decide (e.kind = .meal))

theorem prepDate_ge (cfg : Config) (day : Nat) : shiftedStart cfg ≤ prepDate cfg day := by
  unfold prepDate mealDate
  split_ifs with h
  · have h1 : (1 : Int) ≤ (day : Int) := by exact_mod_cast h
    omega
  · have h1 : (0 : Int) ≤ (day : Int) := Int.ofNat_nonneg day
    omega

theorem mealDate_ge (cfg : Config) (day : Nat) : shiftedStart cfg ≤ mealDate cfg day := by
  unfold mealDate
  have h1 : (0 : Int) ≤ (day : Int) := Int.ofNat_nonneg day
  omega

/-- Everything one day of the loop does, as seen from a successful day
step: it appends a chunk of events for this day, the chunk's meal events
are exactly one lunch meal and one dinner meal carrying the slots'
current recipes and the new-assignment flags, and the remaining-days
counters move as the source prescribes. -/
theorem dayStep_char (cfg : Config) (day : Nat) (s s1 : RunState)
    (h : dayStep cfg day s = .ok s1) :
    ∃ chunk lr dr,
      s1.events = s.events ++ chunk ∧
      s1.lunch.current = some lr ∧ s1.dinner.current = some dr ∧
      (∀ e ∈ chunk, e.day = day ∧ shiftedStart cfg ≤ e.date ∧
        (e.kind = .meal → e.date = mealDate cfg day)) ∧
      mealsOf chunk
        = [⟨.meal, .lunch, day, mealDate cfg day, lr, decide (s.lunch.remaining = 0)⟩,
           ⟨.meal, .dinner, day, mealDate cfg day, dr, decide (s.dinner.remaining = 0)⟩] ∧
      (s.lunch.remaining = 0 → s1.lunch.remaining = lr.days - 1) ∧
      (s.lunch.remaining ≠ 0 → s.lunch.current = some lr ∧
        s1.lunch.remaining = s.lunch.remaining - 1) ∧
      (s.dinner.remaining = 0 → s1.dinner.remaining = dr.days - 1) ∧
      (s.dinner.remaining ≠ 0 → s.dinner.current = some dr ∧
        s1.dinner.remaining = s.dinner.remaining - 1) := by
  obtain ⟨smid, hl, hd⟩ := dayStep_ok_split cfg day s s1 h
  rcases lunchStep_ok_cases cfg day s smid hl with
    ⟨curL, hrL, hcL, rfl⟩ | ⟨rL, kL, hrL, haL, rfl⟩ <;>
  rcases dinnerStep_ok_cases cfg day _ s1 hd with
    ⟨curD, hrD, hcD, rfl⟩ | ⟨rD, kD, hrD, haD, rfl⟩ <;>
  clear h hl hd
  · simp only [lunchRetainState, dinnerRetainState] at hrD hcD ⊢
    refine ⟨[⟨.meal, .lunch, day, mealDate cfg day, curL, false⟩,
             ⟨.meal, .dinner, day, mealDate cfg day, curD, false⟩], curL, curD,
      by simp, by simpa using hcL, by simpa using hcD, ?_, ?_, ?_, ?_, ?_, ?_⟩
    · intro e he
      simp only [List.mem_cons, List.not_mem_nil, or_false] at he
      rcases he with rfl | rfl <;> simp [mealDate_ge]
    · simp [mealsOf, hrL, hrD]
    · intro h0; exact absurd h0 hrL
    · intro h0; exact ⟨hcL, by simp⟩
    · intro h0; exact absurd h0 hrD
    · intro h0; exact ⟨hcD, by simp⟩
  · simp only [lunchRetainState, dinnerAssignState] at hrD ⊢
    refine ⟨[⟨.meal, .lunch, day, mealDate cfg day, curL, false⟩,
             ⟨.prep, .dinner, day, prepDate cfg day, rD, true⟩,
             ⟨.meal, .dinner, day, mealDate cfg day, rD, true⟩], curL, rD,
      by simp, by simpa using hcL, by simp, ?_, ?_, ?_, ?_, ?_, ?_⟩
    · intro e he
      simp only [List.mem_cons, List.not_mem_nil, or_false] at he
      rcases he with rfl | rfl | rfl <;> simp [mealDate_ge, prepDate_ge]
    · simp [mealsOf, hrL, hrD]
    · intro h0; exact absurd h0 hrL
    · intro h0; exact ⟨hcL, by simp⟩
    · intro h0; simp
    · intro h0; exact absurd hrD h0
  · simp only [lunchAssignState, dinnerRetainState] at hrD hcD ⊢
    refine ⟨[⟨.prep, .lunch, day, prepDate cfg day, rL, true⟩,
             ⟨.meal, .lunch, day, mealDate cfg day, rL, true⟩,
             ⟨.meal, .dinner, day, mealDate cfg day, curD, false⟩], rL, curD,
      by simp, by simp, by simpa using hcD, ?_, ?_, ?_, ?_, ?_, ?_⟩
    · intro e he
      simp only [List.mem_cons, List.not_mem_nil, or_false] at he
      rcases he with rfl | rfl | rfl <;> simp [mealDate_ge, prepDate_ge]
    · simp [mealsOf, hrL, hrD]
    · intro h0; simp
    · intro h0; exact absurd hrL h0
    · intro h0; exact absurd h0 hrD
    · intro h0; exact ⟨hcD, by simp⟩
  · simp only [lunchAssignState, dinnerAssignState] at hrD ⊢
    refine ⟨[⟨.prep, .lunch, day, prepDate cfg day, rL, true⟩,
             ⟨.meal, .lunch, day, mealDate cfg day, rL, true⟩,
             ⟨.prep, .dinner, day, prepDate cfg day, rD, true⟩,
             ⟨.meal, .dinner, day, mealDate cfg day, rD, true⟩], rL, rD,
      by simp, by simp, by simp, ?_, ?_, ?_, ?_, ?_, ?_⟩
    · intro e he
      simp only [List.mem_cons, List.not_mem_nil, or_false] at he
      rcases he with rfl | rfl | rfl | rfl <;> simp [mealDate_ge, prepDate_ge]
    · simp [mealsOf, hrL, hrD]
    · intro h0; simp
    · intro h0; exact absurd hrL h0
    · intro h0; simp
    · intro h0; exact absurd hrD h0

/-! ### Counting meal events -/

theorem countMeal_append (a b : List Event) (sl : Slot) (d : Nat) :
    countMeal (a ++ b) sl d = countMeal a sl d + countMeal b sl d := by
  simp [countMeal, List.filter_append]

theorem countMeal_eq_zero (l : List Event) (sl : Slot) (d : Nat)
    (h : ∀ e ∈ l, e.day ≠ d) : countMeal l sl d = 0 := by
  unfold countMeal
  rw [List.length_eq_zero, List.filter_eq_nil_iff]
  intro e he
  simp [h e he]

theorem countMeal_mealsOf (l : List Event) (sl : Slot) (d : Nat) :
    countMeal l sl d
      = ((mealsOf l).filter (fun e => decide (e.slot = sl ∧ e.day = d))).length := by
  unfold countMeal mealsOf
  rw [List.filter_filter]
  congr 1
  apply List.filter_congr
  intro e _
  simp [Bool.and_comm, and_assoc]

/-- The per-day chunk contributes exactly one meal event per slot on its
own day and none on any other day. -/
theorem dayStep_chunk_count (cfg : Config) (day : Nat) (s s1 : RunState)
    (h : dayStep cfg day s = .ok s1) :
    ∃ chunk, s1.events = s.events ++ chunk ∧
      (∀ e ∈ chunk, e.day = day ∧ shiftedStart cfg ≤ e.date ∧
        (e.kind = .meal → e.date = mealDate cfg day)) ∧
      (∀ sl, countMeal chunk sl day = 1) ∧
      (∀ sl d2, d2 ≠ day → countMeal chunk sl d2 = 0) := by
  obtain ⟨chunk, lr, dr, hev, _, _, hstamp, hmeals, _⟩ := dayStep_char cfg day s s1 h
  refine ⟨chunk, hev, hstamp, ?_, ?_⟩
  · intro sl
    rw [countMeal_mealsOf, hmeals]
    cases sl <;> simp
  · intro sl d2 hd2
    exact countMeal_eq_zero chunk sl d2 (fun e he => by rw [(hstamp e he).1]; exact (Ne.symm hd2))

/-! ### Loop-level event accounting -/

theorem daysLoop_events (cfg : Config) (n : Nat) :
    ∀ (d0 : Nat) (s sF : RunState), daysLoop cfg n d0 s = .ok sF →
    ∃ tail,
      sF.events = s.events ++ tail ∧
      (∀ e ∈ tail, d0 ≤ e.day ∧ e.day < d0 + n ∧ shiftedStart cfg ≤ e.date ∧
        (e.kind = .meal → e.date = mealDate cfg e.day)) ∧
      (∀ sl d, d0 ≤ d → d < d0 + n → countMeal tail sl d = 1) := by
  induction n with
  | zero =>
    intro d0 s sF h
    simp only [daysLoop] at h
    have hs : sF = s := (Except.ok.inj h).symm
    subst hs
    exact ⟨[], by simp, by simp, fun sl d h1 h2 => by omega⟩
  | succ n ih =>
    intro d0 s sF h
    simp only [daysLoop] at h
    cases h1 : dayStep cfg d0 s with
    | error e => rw [h1] at h; simp [Except.bind] at h
    | ok s1 =>
      rw [h1] at h
      simp only [Except.bind] at h
      obtain ⟨tail1, hev1, hstamp1, hcount1⟩ := ih (d0 + 1) s1 sF h
      obtain ⟨chunk, hev0, hstamp0, hcnt1, hcnt0⟩ := dayStep_chunk_count cfg d0 s s1 h1
      refine ⟨chunk ++ tail1, by rw [hev1, hev0, List.append_assoc], ?_, ?_⟩
      · intro e he
        rcases List.mem_append.mp he with h2 | h2
        · obtain ⟨hd, hdate, hmd⟩ := hstamp0 e h2
          exact ⟨le_of_eq hd.symm, by omega, hdate, by rw [hd]; exact hmd⟩
        · obtain ⟨ha, hb, hc, hd⟩ := hstamp1 e h2
          exact ⟨by omega, by omega, hc, hd⟩
      · intro sl d hd1 hd2
        rw [countMeal_append]
        by_cases hd : d = d0
        · subst hd
          rw [hcnt1 sl, countMeal_eq_zero tail1 sl d
            (fun e he => by have := (hstamp1 e he).1; omega)]
        · rw [hcnt0 sl d hd, hcount1 sl d (by omega) (by omega)]

/-! ### Run decomposition -/

theorem run_ok_decomp (cfg : Config) (evs : List Event) (lks : List Lookup)
    (h : create_meal_prep_calendar cfg = .ok (evs, lks)) :
    2 ≤ cfg.recipes.length ∧
    ∃ sT, loopState cfg (totalDays cfg) = .ok sT ∧
      evs = sT.events ++ (overflowPart cfg sT).1 ∧
      lks = sT.lookups ++ (overflowPart cfg sT).2 := by
  unfold create_meal_prep_calendar at h
  split_ifs at h with h2
  refine ⟨by omega, ?_⟩
  cases hT : daysLoop cfg (totalDays cfg) 0 initState with
  | error e => rw [hT] at h; cases h
  | ok sT =>
    rw [hT] at h
    have h3 := Except.ok.inj h
    exact ⟨sT, hT, (congrArg Prod.fst h3).symm, (congrArg Prod.snd h3).symm⟩

theorem runEvents_eq (cfg : Config) (evs : List Event) (lks : List Lookup)
    (h : create_meal_prep_calendar cfg = .ok (evs, lks)) : runEvents cfg = evs := by
  simp [runEvents, h]

theorem runLookups_eq (cfg : Config) (evs : List Event) (lks : List Lookup)
    (h : create_meal_prep_calendar cfg = .ok (evs, lks)) : runLookups cfg = lks := by
  simp [runLookups, h]

theorem runOk_iff (cfg : Config) :
    runOk cfg = true ↔ ∃ evs lks, create_meal_prep_calendar cfg = .ok (evs, lks) := by
  unfold runOk
  cases h : create_meal_prep_calendar cfg with
  | error e => simp
  | ok p =>
    obtain ⟨evs, lks⟩ := p
    exact iff_of_true rfl ⟨evs, lks, rfl⟩

/-! ### Overflow closed forms -/

/-- The continuation events one slot receives during overflow: one meal
event per remaining day, same recipe, consecutive days. -/
def slotRun (cfg : Config) (sl : Slot) (r : Recipe) : Nat → Nat → List Event
  | _, 0 => []
  | d0, cnt + 1 =>
    ⟨.meal, sl, d0, mealDate cfg d0, r, false⟩ :: slotRun cfg sl r (d0 + 1) cnt

theorem slotRun_length (cfg : Config) (sl : Slot) (r : Recipe) :
    ∀ (cnt d0 : Nat), (slotRun cfg sl r d0 cnt).length = cnt := by
  intro cnt
  induction cnt with
  | zero => intro d0; simp [slotRun]
  | succ c ih => intro d0; simp [slotRun, ih]

theorem slotRun_mem (cfg : Config) (sl : Slot) (r : Recipe) :
    ∀ (cnt d0 : Nat) (e : Event), e ∈ slotRun cfg sl r d0 cnt ↔
      ∃ i, i < cnt ∧ e = ⟨.meal, sl, d0 + i, mealDate cfg (d0 + i), r, false⟩ := by
  intro cnt
  induction cnt with
  | zero => intro d0 e; simp [slotRun]
  | succ c ih =>
    intro d0 e
    simp only [slotRun, List.mem_cons, ih]
    constructor
    · rintro (rfl | ⟨i, hi, rfl⟩)
      · exact ⟨0, by omega, by simp⟩
      · exact ⟨i + 1, by omega, by rw [show d0 + (i + 1) = d0 + 1 + i by omega]⟩
    · rintro ⟨i, hi, rfl⟩
      cases i with
      | zero => left; simp
      | succ j =>
        right
        exact ⟨j, by omega, by rw [show d0 + (j + 1) = d0 + 1 + j by omega]⟩



theorem overflowGo_bounds (cfg : Config) (lr dr : Recipe) (k : Nat) :
    ∀ (lrem drem d0 : Nat), ∀ e ∈ (overflowGo cfg lr dr k lrem drem d0).1,
      d0 ≤ e.day ∧ e.day < d0 + k ∧ e.isNew = false ∧ e.kind = .meal ∧
      e.date = mealDate cfg e.day := by
  induction k with
  | zero => intro lrem drem d0 e he; simp [overflowGo] at he
  | succ n ih =>
    intro lrem drem d0 e he
    simp only [overflowGo, List.append_assoc, List.mem_append] at he
    rcases he with he | he | he
    · split_ifs at he with h1 <;> simp only [List.mem_singleton, List.not_mem_nil] at he
      subst he
      refine ⟨Nat.le.refl, ?_, rfl, rfl, rfl⟩
      show d0 < d0 + (n + 1)
      omega
    · split_ifs at he with h1 <;> simp only [List.mem_singleton, List.not_mem_nil] at he
      subst he
      refine ⟨Nat.le.refl, ?_, rfl, rfl, rfl⟩
      show d0 < d0 + (n + 1)
      omega
    · obtain ⟨ha, hb, hc, hd, he2⟩ := ih (lrem - 1) (drem - 1) (d0 + 1) e he
      exact ⟨by omega, by omega, hc, hd, he2⟩

theorem overflowGo_lunch_filter (cfg : Config) (lr dr : Recipe) (k : Nat) :
    ∀ (lrem drem d0 : Nat), lrem ≤ k →
    (overflowGo cfg lr dr k lrem drem d0).1.filter (fun e => decide (e.slot = .lunch))
      = slotRun cfg .lunch lr d0 lrem := by
  induction k with
  | zero =>
    intro lrem drem d0 hle
    interval_cases lrem
    simp [overflowGo, slotRun]
  | succ n ih =>
    intro lrem drem d0 hle
    cases lrem with
    | zero =>
      simp only [overflowGo]
      rw [List.filter_append, List.filter_append]
      rw [ih 0 (drem - 1) (d0 + 1) (Nat.zero_le n)]
      rw [if_neg (by omega : ¬ (0 : Nat) < 0)]
      by_cases hd : 0 < drem
      · rw [if_pos hd]; simp [slotRun]
      · rw [if_neg hd]; simp [slotRun]
    | succ m =>
      simp only [overflowGo]
      rw [List.filter_append, List.filter_append]
      simp only [Nat.add_sub_cancel]
      rw [ih m (drem - 1) (d0 + 1) (by omega)]
      rw [if_pos (by omega : (0 : Nat) < m + 1)]
      by_cases hd : 0 < drem
      · rw [if_pos hd]; simp [slotRun]
      · rw [if_neg hd]; simp [slotRun]

theorem overflowGo_dinner_filter (cfg : Config) (lr dr : Recipe) (k : Nat) :
    ∀ (lrem drem d0 : Nat), drem ≤ k →
    (overflowGo cfg lr dr k lrem drem d0).1.filter (fun e => decide (e.slot = .dinner))
      = slotRun cfg .dinner dr d0 drem := by
  induction k with
  | zero =>
    intro lrem drem d0 hle
    interval_cases drem
    simp [overflowGo, slotRun]
  | succ n ih =>
    intro lrem drem d0 hle
    cases drem with
    | zero =>
      simp only [overflowGo]
      rw [List.filter_append, List.filter_append]
      rw [ih (lrem - 1) 0 (d0 + 1) (Nat.zero_le n)]
      rw [if_neg (by omega : ¬ (0 : Nat) < 0)]
      by_cases hl : 0 < lrem
      · rw [if_pos hl]; simp [slotRun]
      · rw [if_neg hl]; simp [slotRun]
    | succ m =>
      simp only [overflowGo]
      rw [List.filter_append, List.filter_append]
      simp only [Nat.add_sub_cancel]
      rw [ih (lrem - 1) m (d0 + 1) (by omega)]
      rw [if_pos (by omega : (0 : Nat) < m + 1)]
      by_cases hl : 0 < lrem
      · rw [if_pos hl]; simp [slotRun]
      · rw [if_neg hl]; simp [slotRun]

theorem overflowPart_bounds (cfg : Config) (s : RunState) :
    ∀ e ∈ (overflowPart cfg s).1,
      totalDays cfg ≤ e.day ∧ e.isNew = false ∧ e.kind = .meal ∧
      e.date = mealDate cfg e.day := by
  intro e he
  unfold overflowPart at he
  split_ifs at he with h1
  · cases hl : s.lunch.current with
    | none =>
      rw [hl] at he
      cases s.dinner.current <;> simp at he
    | some lr =>
      cases hd : s.dinner.current with
      | none => rw [hl, hd] at he; simp at he
      | some dr =>
        rw [hl, hd] at he
        obtain ⟨ha, _, hc, hd2, he2⟩ := overflowGo_bounds cfg lr dr _ _ _ _ e he
        exact ⟨ha, hc, hd2, he2⟩
  · simp at he

/-! ### Run-level event accounting -/

theorem run_countMeal (cfg : Config) (evs : List Event) (lks : List Lookup)
    (h : create_meal_prep_calendar cfg = .ok (evs, lks))
    (sl : Slot) (d : Nat) (hd : d < totalDays cfg) : countMeal evs sl d = 1 := by
  obtain ⟨h2, sT, hT, hevs, hlks⟩ := run_ok_decomp cfg evs lks h
  obtain ⟨tail, htail, hstamp, hcount⟩ := daysLoop_events cfg (totalDays cfg) 0 initState sT hT
  subst hevs
  rw [countMeal_append]
  have h0 : sT.events = tail := by simpa [initState] using htail
  rw [h0, hcount sl d (Nat.zero_le d) (by omega),
    countMeal_eq_zero _ sl d (fun e he => by
      have h1 := (overflowPart_bounds cfg sT e he).1
      omega)]

theorem run_events_facts (cfg : Config) (evs : List Event) (lks : List Lookup)
    (h : create_meal_prep_calendar cfg = .ok (evs, lks)) :
    ∀ e ∈ evs, shiftedStart cfg ≤ e.date ∧
      (e.kind = .meal → e.date = mealDate cfg e.day) ∧
      (totalDays cfg ≤ e.day → e.isNew = false) := by
  obtain ⟨h2, sT, hT, hevs, hlks⟩ := run_ok_decomp cfg evs lks h
  obtain ⟨tail, htail, hstamp, hcount⟩ := daysLoop_events cfg (totalDays cfg) 0 initState sT hT
  subst hevs
  intro e he
  rcases List.mem_append.mp he with he1 | he1
  · rw [show sT.events = tail from by simpa [initState] using htail] at he1
    obtain ⟨ha, hb, hc, hd3⟩ := hstamp e he1
    exact ⟨hc, hd3, fun hday => absurd hb (by omega)⟩
  · obtain ⟨ha, hb, hc, hd3⟩ := overflowPart_bounds cfg sT e he1
    exact ⟨hd3 ▸ mealDate_ge cfg e.day, fun _ => hd3, fun _ => hb⟩

theorem filter_len_one_unique {p : Event → Bool} {l : List Event}
    (h : (l.filter p).length = 1) {a b : Event} (ha : a ∈ l) (hpa : p a = true)
    (hb : b ∈ l) (hpb : p b = true) : a = b := by
  obtain ⟨x, hx⟩ := List.length_eq_one.mp h
  have h1 : a ∈ l.filter p := List.mem_filter.mpr ⟨ha, hpa⟩
  have h2 : b ∈ l.filter p := List.mem_filter.mpr ⟨hb, hpb⟩
  rw [hx] at h1 h2
  simp only [List.mem_singleton] at h1 h2
  rw [h1, h2]

theorem loopState_events_prefix (cfg : Config) (j T : Nat) (sj sT : RunState)
    (hle : j ≤ T) (hj : loopState cfg j = .ok sj) (hT : loopState cfg T = .ok sT) :
    ∃ tl, sT.events = sj.events ++ tl ∧ ∀ e ∈ tl, j ≤ e.day := by
  obtain ⟨m, rfl⟩ := Nat.exists_eq_add_of_le hle
  have h2 := loopState_tail cfg j m sj sT hj hT
  obtain ⟨tl, htl, hstamp, _⟩ := daysLoop_events cfg m j sj sT h2
  exact ⟨tl, htl, fun e he => (hstamp e he).1⟩

/-! ### Per-slot view of a day step -/

def slotSt (s : RunState) : Slot → SlotState
  | .lunch => s.lunch
  | .dinner => s.dinner

/-- The per-slot reading of `dayStep_char`: a successful day step leaves
the slot holding some recipe `r`, emits exactly the meal event
`(day, sl, r)` flagged new iff the counter had drained, and moves the
counter accordingly. -/
theorem dayStep_slot_char (cfg : Config) (day : Nat) (s s1 : RunState) (sl : Slot)
    (h : dayStep cfg day s = .ok s1) :
    ∃ chunk r,
      s1.events = s.events ++ chunk ∧
      (slotSt s1 sl).current = some r ∧
      (⟨.meal, sl, day, mealDate cfg day, r,
        decide ((slotSt s sl).remaining = 0)⟩ : Event) ∈ chunk ∧
      ((slotSt s sl).remaining = 0 → (slotSt s1 sl).remaining = r.days - 1) ∧
      ((slotSt s sl).remaining ≠ 0 → (slotSt s sl).current = some r ∧
        (slotSt s1 sl).remaining = (slotSt s sl).remaining - 1) := by
  obtain ⟨chunk, lr, dr, hev, hcl, hcd, hstamp, hmeals, hl0, hl1, hd0, hd1⟩ :=
    dayStep_char cfg day s s1 h
  cases sl with
  | lunch =>
    refine ⟨chunk, lr, hev, hcl, ?_, hl0, hl1⟩
    have hmem : (⟨.meal, .lunch, day, mealDate cfg day, lr,
        decide (s.lunch.remaining = 0)⟩ : Event) ∈ mealsOf chunk := by
      rw [hmeals]; simp
    exact List.mem_of_mem_filter hmem
  | dinner =>
    refine ⟨chunk, dr, hev, hcd, ?_, hd0, hd1⟩
    have hmem : (⟨.meal, .dinner, day, mealDate cfg day, dr,
        decide (s.dinner.remaining = 0)⟩ : Event) ∈ mealsOf chunk := by
      rw [hmeals]; simp
    exact List.mem_of_mem_filter hmem

/-- Within a successful run, the day-`d` meal event of a slot (for `d`
inside the nominal horizon) is exactly the one the day-`d` step emitted. -/
theorem run_day_event (cfg : Config) (evs : List Event) (lks : List Lookup)
    (h : create_meal_prep_calendar cfg = .ok (evs, lks)) (sl : Slot) (d : Nat)
    (hd : d < totalDays cfg) :
    ∃ sd s1 r, loopState cfg d = .ok sd ∧ loopState cfg (d + 1) = .ok s1 ∧
      dayStep cfg d sd = .ok s1 ∧
      (slotSt s1 sl).current = some r ∧
      (⟨.meal, sl, d, mealDate cfg d, r,
        decide ((slotSt sd sl).remaining = 0)⟩ : Event) ∈ evs ∧
      (∀ e ∈ evs, e.kind = .meal → e.slot = sl → e.day = d →
        e = ⟨.meal, sl, d, mealDate cfg d, r, decide ((slotSt sd sl).remaining = 0)⟩) := by
  obtain ⟨h2, sT, hT, hevs, hlks⟩ := run_ok_decomp cfg evs lks h
  obtain ⟨sd, hsd⟩ := loopState_le_ok cfg d (totalDays cfg) sT (by omega) hT
  obtain ⟨s1, hs1⟩ := loopState_le_ok cfg (d + 1) (totalDays cfg) sT (by omega) hT
  have hstep : dayStep cfg d sd = .ok s1 := by
    rw [← loopState_succ_eq cfg d sd hsd]; exact hs1
  obtain ⟨chunk, r, hev, hcur, hmem, hrem0, hrem1⟩ :=
    dayStep_slot_char cfg d sd s1 sl hstep
  obtain ⟨tl, htl, _⟩ :=
    loopState_events_prefix cfg (d + 1) (totalDays cfg) s1 sT (by omega) hs1 hT
  have hin : (⟨.meal, sl, d, mealDate cfg d, r,
      decide ((slotSt sd sl).remaining = 0)⟩ : Event) ∈ evs := by
    rw [hevs, htl, hev]
    simp only [List.append_assoc, List.mem_append]
    exact Or.inr (Or.inl hmem)
  refine ⟨sd, s1, r, hsd, hs1, hstep, hcur, hin, ?_⟩
  intro e he hk hs hday
  have hc := run_countMeal cfg evs lks h sl d hd
  unfold countMeal at hc
  exact filter_len_one_unique hc he (by simp [hk, hs, hday]) hin (by simp)

/-! ### The lunch-dinner distinctness invariant -/

/-- The cross-slot invariant: whenever both slots hold a recipe, the two
urls differ. -/
def Inv (s : RunState) : Prop :=
  ∀ lr dr, s.lunch.current = some lr → s.dinner.current = some dr → lr.url ≠ dr.url

theorem lunchSelect_ok (cfg : Config) (s : RunState) (r : Recipe) (k2 : Nat)
    (h : lunchSelect cfg s = .ok (r, k2)) :
    get_next_recipe_avoiding_conflict cfg.recipes s.lunch.prevUrl
      (lastTwo s.lunch.usedRecent) (lunchConflictUrl s) (cfg.rng s.k) = some r := by
  unfold lunchSelect at h
  cases hg : get_next_recipe_avoiding_conflict cfg.recipes s.lunch.prevUrl
      (lastTwo s.lunch.usedRecent) (lunchConflictUrl s) (cfg.rng s.k) with
  | none => rw [hg] at h; exact Except.noConfusion h
  | some r2 =>
    rw [hg] at h
    have h2 := Except.ok.inj h
    have h3 : r2 = r := congrArg Prod.fst h2
    rw [← h3]

theorem dinnerSelect_ok (cfg : Config) (s : RunState) (r : Recipe) (k2 : Nat)
    (h : dinnerSelect cfg s = .ok (r, k2)) :
    get_next_recipe_avoiding_conflict cfg.recipes s.dinner.prevUrl
      (lastTwo s.dinner.usedRecent) (dinnerConflictUrl s) (cfg.rng s.k) = some r := by
  unfold dinnerSelect at h
  cases hg : get_next_recipe_avoiding_conflict cfg.recipes s.dinner.prevUrl
      (lastTwo s.dinner.usedRecent) (dinnerConflictUrl s) (cfg.rng s.k) with
  | none => rw [hg] at h; exact Except.noConfusion h
  | some r2 =>
    rw [hg] at h
    have h2 := Except.ok.inj h
    have h3 : r2 = r := congrArg Prod.fst h2
    rw [← h3]

theorem lunchAssign_noforce (cfg : Config) (day : Nat) (s : RunState) (r : Recipe) (k2 : Nat)
    (hfl : cfg.first_lunch_url = none) (ha : lunchAssign cfg day s = .ok (r, k2)) :
    get_next_recipe_avoiding_conflict cfg.recipes s.lunch.prevUrl
      (lastTwo s.lunch.usedRecent) (lunchConflictUrl s) (cfg.rng s.k) = some r := by
  unfold lunchAssign at ha
  split_ifs at ha with h0
  · rw [hfl] at ha
    exact lunchSelect_ok cfg s r k2 ha
  · exact lunchSelect_ok cfg s r k2 ha

theorem dinnerAssign_noforce (cfg : Config) (day : Nat) (s : RunState) (r : Recipe) (k2 : Nat)
    (hfd : cfg.first_dinner_url = none) (ha : dinnerAssign cfg day s = .ok (r, k2)) :
    get_next_recipe_avoiding_conflict cfg.recipes s.dinner.prevUrl
      (lastTwo s.dinner.usedRecent) (dinnerConflictUrl s) (cfg.rng s.k) = some r := by
  unfold dinnerAssign at ha
  split_ifs at ha with h0
  · rw [hfd] at ha
    exact dinnerSelect_ok cfg s r k2 ha
  · exact dinnerSelect_ok cfg s r k2 ha

theorem lunchStep_current_obtain (cfg : Config) (day : Nat) (s smid : RunState)
    (hfl : cfg.first_lunch_url = none) (h : lunchStep cfg day s = .ok smid) :
    smid.dinner = s.dinner ∧ ∃ lr, smid.lunch.current = some lr ∧
      (s.lunch.current = some lr ∨
        get_next_recipe_avoiding_conflict cfg.recipes s.lunch.prevUrl
          (lastTwo s.lunch.usedRecent) (lunchConflictUrl s) (cfg.rng s.k) = some lr) := by
  rcases lunchStep_ok_cases cfg day s smid h with ⟨cur, hr, hc, rfl⟩ | ⟨r, k2, hr, ha, rfl⟩
  · exact ⟨rfl, cur, by simp [lunchRetainState, hc], Or.inl hc⟩
  · exact ⟨rfl, r, by simp [lunchAssignState],
      Or.inr (lunchAssign_noforce cfg day s r k2 hfl ha)⟩

theorem dinnerStep_current_obtain (cfg : Config) (day : Nat) (s s1 : RunState)
    (hfd : cfg.first_dinner_url = none) (h : dinnerStep cfg day s = .ok s1) :
    s1.lunch = s.lunch ∧ ∃ dr, s1.dinner.current = some dr ∧
      (s.dinner.current = some dr ∨
        get_next_recipe_avoiding_conflict cfg.recipes s.dinner.prevUrl
          (lastTwo s.dinner.usedRecent) (dinnerConflictUrl s) (cfg.rng s.k) = some dr) := by
  rcases dinnerStep_ok_cases cfg day s s1 h with ⟨cur, hr, hc, rfl⟩ | ⟨r, k2, hr, ha, rfl⟩
  · exact ⟨rfl, cur, by simp [dinnerRetainState, hc], Or.inl hc⟩
  · exact ⟨rfl, r, by simp [dinnerAssignState],
      Or.inr (dinnerAssign_noforce cfg day s r k2 hfd ha)⟩

theorem dinnerStep_current_obtain_free (cfg : Config) (day : Nat) (s s1 : RunState)
    (h : dinnerStep cfg day s = .ok s1) : s1.lunch = s.lunch := by
  rcases dinnerStep_ok_cases cfg day s s1 h with ⟨cur, hr, hc, rfl⟩ | ⟨r, k2, hr, ha, rfl⟩ <;>
    rfl

theorem exists_avoid (recipes : List Recipe) (u : String)
    (hdis : ∃ r1 ∈ recipes, ∃ r2 ∈ recipes, r1.url ≠ r2.url) :
    ∃ r0 ∈ recipes, (some u : Option String) ≠ some r0.url := by
  obtain ⟨r1, h1, r2, h2, hne⟩ := hdis
  by_cases h : r1.url = u
  · refine ⟨r2, h2, ?_⟩
    simp only [ne_eq, Option.some.injEq]
    intro hc
    exact hne (by rw [h, ← hc])
  · refine ⟨r1, h1, ?_⟩
    simp only [ne_eq, Option.some.injEq]
    intro hc
    exact h hc.symm

theorem dayStep_preserves_Inv (cfg : Config) (day : Nat) (s s1 : RunState)
    (hfl : cfg.first_lunch_url = none) (hfd : cfg.first_dinner_url = none)
    (hdis : ∃ r1 ∈ cfg.recipes, ∃ r2 ∈ cfg.recipes, r1.url ≠ r2.url)
    (hInv : Inv s) (h : dayStep cfg day s = .ok s1) : Inv s1 := by
  obtain ⟨smid, hl, hd⟩ := dayStep_ok_split cfg day s s1 h
  obtain ⟨hdinkeep, lr, hlr, hlrsrc⟩ := lunchStep_current_obtain cfg day s smid hfl hl
  obtain ⟨hlunkeep, dr, hdr, hdrsrc⟩ := dinnerStep_current_obtain cfg day smid s1 hfd hd
  intro lr2 dr2 hl2 hd2
  rw [hlunkeep, hlr] at hl2
  rw [hdr] at hd2
  obtain rfl : lr = lr2 := Option.some.inj hl2
  obtain rfl : dr = dr2 := Option.some.inj hd2
  rcases hdrsrc with hdret | hdsel
  · rw [hdinkeep] at hdret
    rcases hlrsrc with hlret | hlsel
    · exact hInv lr dr hlret hdret
    · have hc : lunchConflictUrl s = some dr.url := by simp [lunchConflictUrl, hdret]
      rw [hc] at hlsel
      have hav := getNext_avoids cfg.recipes s.lunch.prevUrl (lastTwo s.lunch.usedRecent)
        (some dr.url) (cfg.rng s.k) lr (exists_avoid cfg.recipes dr.url hdis) hlsel
      intro heq
      exact hav (by rw [heq])
  · have hc : dinnerConflictUrl smid = some lr.url := by simp [dinnerConflictUrl, hlr]
    rw [hc] at hdsel
    have hav := getNext_avoids cfg.recipes smid.dinner.prevUrl (lastTwo smid.dinner.usedRecent)
      (some lr.url) (cfg.rng smid.k) dr (exists_avoid cfg.recipes lr.url hdis) hdsel
    intro heq
    exact hav (by rw [heq])

theorem Inv_initState : Inv initState := by
  intro lr dr h1 h2
  simp [initState, initSlot] at h1

theorem loopState_Inv (cfg : Config)
    (hfl : cfg.first_lunch_url = none) (hfd : cfg.first_dinner_url = none)
    (hdis : ∃ r1 ∈ cfg.recipes, ∃ r2 ∈ cfg.recipes, r1.url ≠ r2.url)
    (j : Nat) (sj : RunState) (h : loopState cfg j = .ok sj) : Inv sj := by
  induction j generalizing sj with
  | zero =>
    have h2 : sj = initState := by
      simp only [loopState, daysLoop] at h
      exact (Except.ok.inj h).symm
    rw [h2]
    exact Inv_initState
  | succ n ih =>
    obtain ⟨sn, hsn⟩ := loopState_le_ok cfg n (n + 1) sj (by omega) h
    have hstep : dayStep cfg n sn = .ok sj := by
      rw [← loopState_succ_eq cfg n sn hsn]
      exact h
    exact dayStep_preserves_Inv cfg n sn sj hfl hfd hdis (ih sn hsn) hstep

theorem overflowPart_recipes (cfg : Config) (s : RunState) :
    ∀ e ∈ (overflowPart cfg s).1,
      (e.slot = .lunch → s.lunch.current = some e.recipe) ∧
      (e.slot = .dinner → s.dinner.current = some e.recipe) := by
  intro e he
  unfold overflowPart at he
  split_ifs at he with h1
  · cases hl : s.lunch.current with
    | none => rw [hl] at he; cases s.dinner.current <;> simp at he
    | some lr =>
      cases hd : s.dinner.current with
      | none => rw [hl, hd] at he; simp at he
      | some dr =>
        rw [hl, hd] at he
        constructor
        · intro hsl
          have hmem : e ∈ (overflowGo cfg lr dr (max s.lunch.remaining s.dinner.remaining)
              s.lunch.remaining s.dinner.remaining (totalDays cfg)).1.filter
              (fun e2 => decide (e2.slot = .lunch)) :=
            List.mem_filter.mpr ⟨he, by simp [hsl]⟩
          rw [overflowGo_lunch_filter cfg lr dr _ _ _ _ (le_max_left _ _)] at hmem
          obtain ⟨i, hi, rfl⟩ := (slotRun_mem cfg .lunch lr _ _ e).mp hmem
          rfl
        · intro hsl
          have hmem : e ∈ (overflowGo cfg lr dr (max s.lunch.remaining s.dinner.remaining)
              s.lunch.remaining s.dinner.remaining (totalDays cfg)).1.filter
              (fun e2 => decide (e2.slot = .dinner)) :=
            List.mem_filter.mpr ⟨he, by simp [hsl]⟩
          rw [overflowGo_dinner_filter cfg lr dr _ _ _ _ (le_max_right _ _)] at hmem
          obtain ⟨i, hi, rfl⟩ := (slotRun_mem cfg .dinner dr _ _ e).mp hmem
          rfl
  · simp at he

/-- Run-level distinctness: without forced first urls and with at least
two distinct urls in the pool, the lunch and dinner meal events of any
one day never share a url. -/
theorem run_distinct (cfg : Config) (evs : List Event) (lks : List Lookup)
    (h : create_meal_prep_calendar cfg = .ok (evs, lks))
    (hfl : cfg.first_lunch_url = none) (hfd : cfg.first_dinner_url = none)
    (hdis : ∃ r1 ∈ cfg.recipes, ∃ r2 ∈ cfg.recipes, r1.url ≠ r2.url) :
    ∀ el ∈ evs, ∀ ed ∈ evs, el.kind = .meal → ed.kind = .meal →
      el.slot = .lunch → ed.slot = .dinner → el.day = ed.day →
      el.recipe.url ≠ ed.recipe.url := by
  intro el hel ed hed hkl hkd hsl hsd hday
  by_cases hlt : el.day < totalDays cfg
  · obtain ⟨sdL, s1L, rL, hsdL, hs1L, _, hcurL, _, huniqL⟩ :=
      run_day_event cfg evs lks h .lunch el.day hlt
    obtain ⟨sdD, s1D, rD, hsdD, hs1D, _, hcurD, _, huniqD⟩ :=
      run_day_event cfg evs lks h .dinner el.day hlt
    have hrl : el.recipe = rL := by
      have h2 := huniqL el hel hkl hsl rfl
      rw [h2]
    have hrd : ed.recipe = rD := by
      have h2 := huniqD ed hed hkd hsd hday.symm
      rw [h2]
    have hsame : s1D = s1L := by
      rw [hs1L] at hs1D
      exact (Except.ok.inj hs1D).symm
    rw [hsame] at hcurD
    have hInv := loopState_Inv cfg hfl hfd hdis (el.day + 1) s1L hs1L
    rw [hrl, hrd]
    exact hInv rL rD hcurL hcurD
  · obtain ⟨h2, sT, hT, hevs, hlks⟩ := run_ok_decomp cfg evs lks h
    obtain ⟨tail, htail, hstamp, _⟩ := daysLoop_events cfg (totalDays cfg) 0 initState sT hT
    have hTev : sT.events = tail := by simpa [initState] using htail
    have hinOfl : ∀ e2 : Event, e2 ∈ evs → ¬ e2.day < totalDays cfg →
        e2 ∈ (overflowPart cfg sT).1 := by
      intro e2 he2 hnlt
      rw [hevs] at he2
      rcases List.mem_append.mp he2 with hx | hx
      · rw [hTev] at hx
        exact absurd (hstamp e2 hx).2.1 (by omega)
      · exact hx
    have hdd : ¬ ed.day < totalDays cfg := by omega
    have hl2 := (overflowPart_recipes cfg sT el (hinOfl el hel hlt)).1 hsl
    have hd2 := (overflowPart_recipes cfg sT ed (hinOfl ed hed hdd)).2 hsd
    have hInv := loopState_Inv cfg hfl hfd hdis (totalDays cfg) sT hT
    exact hInv el.recipe ed.recipe hl2 hd2

/-! ### Shared concrete configurations for witnesses -/

/-- A small two-recipe, one-week configuration used to instantiate the
theorems on concrete inputs. -/
def cfgW : Config :=
  { recipes := [⟨"a", 2⟩, ⟨"b", 3⟩], num_weeks := 1, start_date := 0,
    first_lunch_url := none, first_dinner_url := none, hasAllergies := false,
    rng := fun _ => 0 }

/-! ### Claim C1 -/

/-- Claim C1 (amended): in every successful run there is exactly one
lunch and one dinner meal event for every day of the nominal horizon
`[0, weeks*7)`; and when no forced first urls are supplied, the lunch
and dinner urls of any one day differ whenever the pool holds at least
two distinct urls.  (The claim as frozen, without the no-forced-urls
restriction on the distinctness part, is refuted by
`claim_C1_counterexample`.) -/
theorem claim_C1 (cfg : Config) (evs : List Event) (lks : List Lookup)
    (h : create_meal_prep_calendar cfg = .ok (evs, lks)) :
    (∀ d, d < totalDays cfg →
      countMeal evs .lunch d = 1 ∧ countMeal evs .dinner d = 1) ∧
    (cfg.first_lunch_url = none → cfg.first_dinner_url = none →
      (∃ r1 ∈ cfg.recipes, ∃ r2 ∈ cfg.recipes, r1.url ≠ r2.url) →
      ∀ el ∈ evs, ∀ ed ∈ evs, el.kind = .meal → ed.kind = .meal →
        el.slot = .lunch → ed.slot = .dinner → el.day = ed.day →
        el.recipe.url ≠ ed.recipe.url) :=
  ⟨fun d hd => ⟨run_countMeal cfg evs lks h .lunch d hd,
    run_countMeal cfg evs lks h .dinner d hd⟩,
   fun hfl hfd hdis => run_distinct cfg evs lks h hfl hfd hdis⟩

theorem claim_C1_witness :
    countMeal (runEvents cfgW) .lunch 3 = 1 ∧ countMeal (runEvents cfgW) .dinner 3 = 1 :=
  (claim_C1 cfgW (runEvents cfgW) (runLookups cfgW) rfl).1 3 (by decide)

/-- The configuration refuting the unrestricted claim C1: two recipes
with two distinct urls, but both forced first urls name the same
recipe. -/
def cfgC1x : Config :=
  { recipes := [⟨"a", 1⟩, ⟨"b", 1⟩], num_weeks := 1, start_date := 0,
    first_lunch_url := some "a", first_dinner_url := some "a", hasAllergies := false,
    rng := fun _ => 0 }

/-- Counterexample to claim C1 as frozen: a valid run (pool of 2 recipes
with 2 distinct urls) whose day-0 lunch and dinner meal events carry the
same url, because both forced first urls name the same recipe. -/
theorem claim_C1_counterexample :
    2 ≤ cfgC1x.recipes.length ∧
    (∃ r1 ∈ cfgC1x.recipes, ∃ r2 ∈ cfgC1x.recipes, r1.url ≠ r2.url) ∧
    runOk cfgC1x = true ∧
    ∃ el ∈ runEvents cfgC1x, ∃ ed ∈ runEvents cfgC1x,
      el.kind = .meal ∧ ed.kind = .meal ∧ el.slot = .lunch ∧ ed.slot = .dinner ∧
      el.day = 0 ∧ ed.day = 0 ∧ el.recipe.url = ed.recipe.url := by
  decide

/-! ### Claim C10 -/

/-- Claim C10: the run unconditionally shifts the caller-supplied start
date forward by one day before scheduling: every emitted event (prep
events included) is dated on or after `start_date + 1`, and the day-`d`
meal event is dated exactly `start_date + 1 + d`, so the first scheduled
meal day is one day after the supplied start date and no event at all is
dated on the supplied date. -/
theorem claim_C10 (cfg : Config) (evs : List Event) (lks : List Lookup)
    (h : create_meal_prep_calendar cfg = .ok (evs, lks)) :
    (∀ e ∈ evs, cfg.start_date + 1 ≤ e.date) ∧
    (∀ e ∈ evs, e.kind = .meal → e.date = cfg.start_date + 1 + (e.day : Int)) := by
  have hf := run_events_facts cfg evs lks h
  refine ⟨fun e he => (hf e he).1, fun e he hk => ?_⟩
  have h2 := (hf e he).2.1 hk
  simpa [mealDate, shiftedStart] using h2

theorem claim_C10_witness :
    (⟨.meal, .lunch, 0, 1, ⟨"a", 2⟩, true⟩ : Event).date
      = cfgW.start_date + 1 + ((⟨.meal, .lunch, 0, 1, ⟨"a", 2⟩, true⟩ : Event).day : Int) :=
  (claim_C10 cfgW (runEvents cfgW) (runLookups cfgW) rfl).2 _ (by decide) rfl

/-! ### Claim C4 -/

/-- Claim C4: past the nominal horizon the run emits only continuation
events (`isNew = false`, no selection); the overflow loop runs for
exactly `max` of the two remaining counters many extra days, each slot
contributing one continuation event per remaining lifespan day on
consecutive days starting at the horizon and stopping when its own
counter drains; and the run's event stream is exactly the nominal stream
followed by this overflow stream. -/
theorem claim_C4 (cfg : Config) :
    (∀ evs lks, create_meal_prep_calendar cfg = .ok (evs, lks) →
      ∀ e ∈ evs, totalDays cfg ≤ e.day → e.isNew = false) ∧
    (∀ lr dr lrem drem d0,
      (overflowGo cfg lr dr (max lrem drem) lrem drem d0).1.filter
          (fun e => decide (e.slot = .lunch)) = slotRun cfg .lunch lr d0 lrem ∧
      (overflowGo cfg lr dr (max lrem drem) lrem drem d0).1.filter
          (fun e => decide (e.slot = .dinner)) = slotRun cfg .dinner dr d0 drem ∧
      ((overflowGo cfg lr dr (max lrem drem) lrem drem d0).1.filter
          (fun e => decide (e.slot = .lunch))).length = lrem ∧
      ((overflowGo cfg lr dr (max lrem drem) lrem drem d0).1.filter
          (fun e => decide (e.slot = .dinner))).length = drem ∧
      (∀ e ∈ (overflowGo cfg lr dr (max lrem drem) lrem drem d0).1,
        d0 ≤ e.day ∧ e.day < d0 + max lrem drem ∧ e.isNew = false) ∧
      (0 < max lrem drem →
        ∃ e ∈ (overflowGo cfg lr dr (max lrem drem) lrem drem d0).1,
          e.day = d0 + max lrem drem - 1)) ∧
    (∀ sT, loopState cfg (totalDays cfg) = .ok sT →
      ∀ evs lks, create_meal_prep_calendar cfg = .ok (evs, lks) →
        evs = sT.events ++ (overflowPart cfg sT).1) := by
  refine ⟨?_, ?_, ?_⟩
  · intro evs lks h e he hday
    exact (run_events_facts cfg evs lks h e he).2.2 hday
  · intro lr dr lrem drem d0
    have hl := overflowGo_lunch_filter cfg lr dr (max lrem drem) lrem drem d0 (le_max_left _ _)
    have hd := overflowGo_dinner_filter cfg lr dr (max lrem drem) lrem drem d0 (le_max_right _ _)
    refine ⟨hl, hd, by rw [hl, slotRun_length], by rw [hd, slotRun_length], ?_, ?_⟩
    · intro e he
      obtain ⟨ha, hb, hc, _, _⟩ := overflowGo_bounds cfg lr dr (max lrem drem) lrem drem d0 e he
      exact ⟨ha, hb, hc⟩
    · intro hmax
      by_cases hge : drem ≤ lrem
      · have hmem : (⟨.meal, .lunch, d0 + (lrem - 1), mealDate cfg (d0 + (lrem - 1)),
            lr, false⟩ : Event) ∈ slotRun cfg .lunch lr d0 lrem :=
          (slotRun_mem cfg .lunch lr lrem d0 _).mpr ⟨lrem - 1, by omega, rfl⟩
        rw [← hl] at hmem
        refine ⟨_, List.mem_of_mem_filter hmem, ?_⟩
        show d0 + (lrem - 1) = d0 + max lrem drem - 1
        omega
      · have hmem : (⟨.meal, .dinner, d0 + (drem - 1), mealDate cfg (d0 + (drem - 1)),
            dr, false⟩ : Event) ∈ slotRun cfg .dinner dr d0 drem :=
          (slotRun_mem cfg .dinner dr drem d0 _).mpr ⟨drem - 1, by omega, rfl⟩
        rw [← hd] at hmem
        refine ⟨_, List.mem_of_mem_filter hmem, ?_⟩
        show d0 + (drem - 1) = d0 + max lrem drem - 1
        omega
  · intro sT hT evs lks h
    obtain ⟨h2, sT2, hT2, hevs, hlks⟩ := run_ok_decomp cfg evs lks h
    have hsame : sT2 = sT := by
      rw [hT] at hT2
      exact (Except.ok.inj hT2).symm
    rw [hevs, hsame]

theorem claim_C4_witness :
    (overflowGo cfgW ⟨"a", 2⟩ ⟨"b", 3⟩ (max 2 1) 2 1 7).1.filter
        (fun e => decide (e.slot = Slot.lunch)) = slotRun cfgW .lunch ⟨"a", 2⟩ 7 2 :=
  ((claim_C4 cfgW).2.1 ⟨"a", 2⟩ ⟨"b", 3⟩ 2 1 7).1

/-! ### Claim C6 -/

/-- Claim C6: conflict avoidance is asymmetric and order-dependent.  A
day step is lunch-then-dinner: once the lunch phase finishes, the rest
of the day is exactly the dinner phase run on the lunch phase's output;
the lunch phase's conflicting url reads the dinner slot of the incoming
state (the prior day's dinner, `none` on day 0 since the initial state
has no dinner recipe), the dinner phase's conflicting url reads the
lunch slot of the mid-day state, i.e. the lunch recipe chosen or
retained earlier the same day (which the lunch phase has just emitted as
this day's lunch meal event); and the lunch phase never touches the
dinner slot. -/
theorem claim_C6 (cfg : Config) (d : Nat) (s s1 : RunState)
    (h : lunchStep cfg d s = .ok s1) :
    dayStep cfg d s = dinnerStep cfg d s1 ∧
    lunchConflictUrl s = s.dinner.current.map (fun r => r.url) ∧
    dinnerConflictUrl s1 = s1.lunch.current.map (fun r => r.url) ∧
    s1.dinner = s.dinner ∧
    (∃ lr, s1.lunch.current = some lr ∧
      ∃ e ∈ s1.events, e.kind = .meal ∧ e.slot = .lunch ∧ e.day = d ∧ e.recipe = lr) ∧
    initState.dinner.current = none := by
  refine ⟨by simp [dayStep, h, Except.bind], rfl, rfl, ?_, ?_, rfl⟩
  · rcases lunchStep_ok_cases cfg d s s1 h with ⟨cur, hr, hc, rfl⟩ | ⟨r, k2, hr, ha, rfl⟩ <;>
      rfl
  · rcases lunchStep_ok_cases cfg d s s1 h with ⟨cur, hr, hc, rfl⟩ | ⟨r, k2, hr, ha, rfl⟩
    · exact ⟨cur, by simp [lunchRetainState, hc],
        ⟨.meal, .lunch, d, mealDate cfg d, cur, false⟩,
        by simp [lunchRetainState], rfl, rfl, rfl, rfl⟩
    · exact ⟨r, by simp [lunchAssignState],
        ⟨.meal, .lunch, d, mealDate cfg d, r, true⟩,
        by simp [lunchAssignState], rfl, rfl, rfl, rfl⟩

/-- The mid-day state of `cfgW` on day 1 (what the lunch phase of that
day produces). -/
def midW : RunState :=
  match lunchStep cfgW 1 initState with
  | .ok s => s
  | .error _ => initState

theorem claim_C6_witness :
    dayStep cfgW 1 initState = dinnerStep cfgW 1 midW :=
  (claim_C6 cfgW 1 initState midW rfl).1

/-! ### Claim C8 -/

theorem lunchAssign_forced (cfg : Config) (s : RunState) (u : String) (r : Recipe)
    (hfl : cfg.first_lunch_url = some u)
    (hfind : cfg.recipes.find? (fun r2 => r2.url == u) = some r) :
    lunchAssign cfg 0 s = .ok (r, s.k) := by
  simp [lunchAssign, hfl, hfind]

theorem dinnerAssign_forced (cfg : Config) (s : RunState) (u : String) (r : Recipe)
    (hfd : cfg.first_dinner_url = some u)
    (hfind : cfg.recipes.find? (fun r2 => r2.url == u) = some r) :
    dinnerAssign cfg 0 s = .ok (r, s.k) := by
  simp [dinnerAssign, hfd, hfind]

theorem lunchAssign_forced_missing (cfg : Config) (s : RunState) (u : String)
    (hfl : cfg.first_lunch_url = some u)
    (hfind : cfg.recipes.find? (fun r2 => r2.url == u) = none) :
    lunchAssign cfg 0 s = .error .firstLunchUrlNotFound := by
  simp [lunchAssign, hfl, hfind]

theorem dinnerAssign_forced_missing (cfg : Config) (s : RunState) (u : String)
    (hfd : cfg.first_dinner_url = some u)
    (hfind : cfg.recipes.find? (fun r2 => r2.url == u) = none) :
    dinnerAssign cfg 0 s = .error .firstDinnerUrlNotFound := by
  simp [dinnerAssign, hfd, hfind]

theorem lunchStep_assign_ok_noforce (cfg : Config) (day : Nat) (s : RunState)
    (hr : s.lunch.remaining = 0) (hfl : cfg.first_lunch_url = none)
    (hne : cfg.recipes ≠ []) : ∃ s1, lunchStep cfg day s = .ok s1 := by
  obtain ⟨r, hg, _⟩ := getNext_isSome cfg.recipes s.lunch.prevUrl
    (lastTwo s.lunch.usedRecent) (lunchConflictUrl s) (cfg.rng s.k) hne
  have ha : lunchAssign cfg day s = .ok (r, s.k + 1) := by
    unfold lunchAssign lunchSelect
    split_ifs with h0
    · rw [hfl, hg]
    · rw [hg]
  exact ⟨_, lunchStep_assign_eq cfg day s r (s.k + 1) hr ha⟩

theorem daysLoop_error_start (cfg : Config) (n d : Nat) (s : RunState)
    (err : ConfigurationError) (h0 : 0 < n) (h : dayStep cfg d s = .error err) :
    daysLoop cfg n d s = .error err := by
  obtain ⟨m, rfl⟩ : ∃ m, n = m + 1 := ⟨n - 1, by omega⟩
  simp [daysLoop, h, Except.bind]

theorem lunchStep_keeps_dinner (cfg : Config) (day : Nat) (s s1 : RunState)
    (h : lunchStep cfg day s = .ok s1) : s1.dinner = s.dinner := by
  rcases lunchStep_ok_cases cfg day s s1 h with ⟨cur, hr, hc, rfl⟩ | ⟨r, k2, hr, ha, rfl⟩ <;>
    rfl

theorem lunchStep_assign_ok_forced (cfg : Config) (s : RunState) (u : String) (r : Recipe)
    (hr : s.lunch.remaining = 0) (hfl : cfg.first_lunch_url = some u)
    (hfind : cfg.recipes.find? (fun r2 => r2.url == u) = some r) :
    ∃ s1, lunchStep cfg 0 s = .ok s1 :=
  ⟨_, lunchStep_assign_eq cfg 0 s r s.k hr (lunchAssign_forced cfg s u r hfl hfind)⟩

theorem dayStep0_lunch_missing (cfg : Config) (u : String)
    (hfl : cfg.first_lunch_url = some u)
    (hfind : cfg.recipes.find? (fun r2 => r2.url == u) = none) :
    dayStep cfg 0 initState = .error .firstLunchUrlNotFound := by
  have hl : lunchStep cfg 0 initState = .error .firstLunchUrlNotFound := by
    have hr : initState.lunch.remaining = 0 := rfl
    simp [lunchStep, hr, lunchAssign_forced_missing cfg initState u hfl hfind]
  simp [dayStep, hl, Except.bind]

theorem dayStep0_dinner_missing (cfg : Config) (u : String) (s1 : RunState)
    (hfd : cfg.first_dinner_url = some u)
    (hfind : cfg.recipes.find? (fun r2 => r2.url == u) = none)
    (hl : lunchStep cfg 0 initState = .ok s1) :
    dayStep cfg 0 initState = .error .firstDinnerUrlNotFound := by
  have hdin : s1.dinner = initState.dinner := lunchStep_keeps_dinner cfg 0 initState s1 hl
  have hr : s1.dinner.remaining = 0 := by rw [hdin]; rfl
  have hd : dinnerStep cfg 0 s1 = .error .firstDinnerUrlNotFound := by
    simp [dinnerStep, hr, dinnerAssign_forced_missing cfg s1 u hfd hfind]
  simp [dayStep, hl, Except.bind, hd]

theorem run_error_of_day0 (cfg : Config) (err : ConfigurationError)
    (hlen : 2 ≤ cfg.recipes.length) (hw : 1 ≤ cfg.num_weeks)
    (h : dayStep cfg 0 initState = .error err) :
    create_meal_prep_calendar cfg = .error err ∧
    runEvents cfg = [] ∧ runLookups cfg = [] := by
  have hloop : daysLoop cfg (totalDays cfg) 0 initState = .error err :=
    daysLoop_error_start cfg (totalDays cfg) 0 initState err
      (by unfold totalDays; omega) h
  have hrun : create_meal_prep_calendar cfg = .error err := by
    unfold create_meal_prep_calendar
    rw [if_neg (by omega), hloop]
  exact ⟨hrun, by simp [runEvents, hrun], by simp [runLookups, hrun]⟩

/-- Claim C8: on day 0 a caller-forced first url for a slot is used
directly — the slot's day-0 meal event carries the first pool entry with
that url, independently of the selection tiers and of the random
stream —, while a forced url absent from the pool aborts the whole run
with the configuration error, before producing any events. -/
theorem claim_C8 (cfg : Config) :
    (∀ u, cfg.first_lunch_url = some u →
      cfg.recipes.find? (fun r2 => r2.url == u) = none →
      2 ≤ cfg.recipes.length → 1 ≤ cfg.num_weeks →
      create_meal_prep_calendar cfg = .error .firstLunchUrlNotFound ∧
        runEvents cfg = [] ∧ runLookups cfg = []) ∧
    (∀ u, cfg.first_dinner_url = some u →
      cfg.recipes.find? (fun r2 => r2.url == u) = none →
      2 ≤ cfg.recipes.length → 1 ≤ cfg.num_weeks →
      (∃ err, create_meal_prep_calendar cfg = .error err ∧
        runEvents cfg = [] ∧ runLookups cfg = []) ∧
      ((cfg.first_lunch_url = none ∨
        (∃ u2 r2, cfg.first_lunch_url = some u2 ∧
          cfg.recipes.find? (fun r3 => r3.url == u2) = some r2)) →
        create_meal_prep_calendar cfg = .error .firstDinnerUrlNotFound ∧
          runEvents cfg = [] ∧ runLookups cfg = [])) ∧
    (∀ u r evs lks, cfg.first_lunch_url = some u →
      cfg.recipes.find? (fun r2 => r2.url == u) = some r →
      create_meal_prep_calendar cfg = .ok (evs, lks) → 0 < totalDays cfg →
      ∀ e ∈ evs, e.kind = .meal → e.slot = .lunch → e.day = 0 → e.recipe = r) ∧
    (∀ u r evs lks, cfg.first_dinner_url = some u →
      cfg.recipes.find? (fun r2 => r2.url == u) = some r →
      create_meal_prep_calendar cfg = .ok (evs, lks) → 0 < totalDays cfg →
      ∀ e ∈ evs, e.kind = .meal → e.slot = .dinner → e.day = 0 → e.recipe = r) := by
  refine ⟨?_, ?_, ?_, ?_⟩
  · intro u hfl hfind hlen hw
    exact run_error_of_day0 cfg .firstLunchUrlNotFound hlen hw
      (dayStep0_lunch_missing cfg u hfl hfind)
  · intro u hfd hfind hlen hw
    have hne : cfg.recipes ≠ [] := by
      intro hnil
      rw [hnil] at hlen
      simp at hlen
    have hcases :
        dayStep cfg 0 initState = .error .firstDinnerUrlNotFound ∨
        ∃ u2, cfg.first_lunch_url = some u2 ∧
          cfg.recipes.find? (fun r3 => r3.url == u2) = none := by
      cases hfl : cfg.first_lunch_url with
      | none =>
        obtain ⟨s1, hl⟩ := lunchStep_assign_ok_noforce cfg 0 initState rfl hfl hne
        exact Or.inl (dayStep0_dinner_missing cfg u s1 hfd hfind hl)
      | some u2 =>
        cases hfind2 : cfg.recipes.find? (fun r3 => r3.url == u2) with
        | none => exact Or.inr ⟨u2, rfl, hfind2⟩
        | some r2 =>
          obtain ⟨s1, hl⟩ := lunchStep_assign_ok_forced cfg initState u2 r2 rfl hfl hfind2
          exact Or.inl (dayStep0_dinner_missing cfg u s1 hfd hfind hl)
    constructor
    · rcases hcases with hx | ⟨u2, hfl2, hf2⟩
      · exact ⟨.firstDinnerUrlNotFound, run_error_of_day0 cfg _ hlen hw hx⟩
      · exact ⟨.firstLunchUrlNotFound,
          run_error_of_day0 cfg _ hlen hw (dayStep0_lunch_missing cfg u2 hfl2 hf2)⟩
    · intro hok
      rcases hcases with hx | ⟨u2, hfl2, hf2⟩
      · exact run_error_of_day0 cfg _ hlen hw hx
      · exfalso
        rcases hok with hnone | ⟨u3, r3, hu3, hr3⟩
        · rw [hfl2] at hnone
          exact Option.noConfusion hnone
        · rw [hu3] at hfl2
          have hu : u3 = u2 := Option.some.inj hfl2
          rw [hu, hf2] at hr3
          exact Option.noConfusion hr3
  · intro u r evs lks hfl hfind h h0 e he hk hs hday
    obtain ⟨sd, s1, rE, hsd, hs1, hstep, hcurE, hinE, huniqE⟩ :=
      run_day_event cfg evs lks h .lunch 0 h0
    have hsd0 : sd = initState := by
      simp only [loopState, daysLoop] at hsd
      exact (Except.ok.inj hsd).symm
    obtain ⟨smid, hls, hds⟩ := dayStep_ok_split cfg 0 sd s1 hstep
    rcases lunchStep_ok_cases cfg 0 sd smid hls with
      ⟨cur, hr, hc, rfl⟩ | ⟨r2, k2, hr, ha, rfl⟩
    · rw [hsd0] at hr
      exact absurd rfl hr
    · rw [hsd0] at ha
      rw [lunchAssign_forced cfg initState u r hfl hfind] at ha
      have hr2 : r2 = r := (congrArg Prod.fst (Except.ok.inj ha)).symm
      have hcur2 : s1.lunch.current = some r2 := by
        have hkeep := dinnerStep_current_obtain_free cfg 0 _ s1 hds
        rw [hkeep]
        simp [lunchAssignState]
      have hrE : rE = r := by
        rw [← hr2]
        have h2 : (slotSt s1 .lunch).current = some rE := hcurE
        rw [show slotSt s1 .lunch = s1.lunch from rfl, hcur2] at h2
        exact (Option.some.inj h2).symm
      rw [huniqE e he hk hs hday, hrE]
  · intro u r evs lks hfd hfind h h0 e he hk hs hday
    obtain ⟨sd, s1, rE, hsd, hs1, hstep, hcurE, hinE, huniqE⟩ :=
      run_day_event cfg evs lks h .dinner 0 h0
    have hsd0 : sd = initState := by
      simp only [loopState, daysLoop] at hsd
      exact (Except.ok.inj hsd).symm
    obtain ⟨smid, hls, hds⟩ := dayStep_ok_split cfg 0 sd s1 hstep
    have hdinmid : smid.dinner = sd.dinner := by
      rcases lunchStep_ok_cases cfg 0 sd smid hls with
        ⟨cur, hr2, hc, rfl⟩ | ⟨r2, k2, hr2, ha, rfl⟩ <;> rfl
    rcases dinnerStep_ok_cases cfg 0 smid s1 hds with
      ⟨cur, hr2, hc, rfl⟩ | ⟨r2, k2, hr2, ha, rfl⟩
    · rw [hdinmid, hsd0] at hr2
      exact absurd rfl hr2
    · rw [dinnerAssign_forced cfg smid u r hfd hfind] at ha
      have hr2 : r2 = r := (congrArg Prod.fst (Except.ok.inj ha)).symm
      have hcur2 : (dinnerAssignState cfg 0 smid r2 k2).dinner.current = some r2 := by
        simp [dinnerAssignState]
      have hrE : rE = r := by
        rw [← hr2]
        have h2 : (slotSt (dinnerAssignState cfg 0 smid r2 k2) .dinner).current = some rE :=
          hcurE
        rw [show slotSt (dinnerAssignState cfg 0 smid r2 k2) .dinner
          = (dinnerAssignState cfg 0 smid r2 k2).dinner from rfl, hcur2] at h2
        exact (Option.some.inj h2).symm
      rw [huniqE e he hk hs hday, hrE]

/-! ### Claim C3 -/

/-- Claim C3: whenever a slot needs a new recipe (no forced first url),
`get_next_recipe_avoiding_conflict` examines the four candidate tiers in
order, returns a uniformly random element of the first non-empty tier
(every element of the winning tier is reachable under some draw), the
tiers contain exactly the candidates described, and with a non-empty
pool the selection always succeeds (tier 4 is the whole pool), so
degraded situations never raise an error. -/
theorem claim_C3 (recipes : List Recipe) (prev_url : Option String)
    (used_recent : List String) (conflicting_url : Option String)
    (hne : recipes ≠ []) :
    (∀ n, get_next_recipe_avoiding_conflict recipes prev_url used_recent conflicting_url n
        = pickUniform n (firstNonemptyTier recipes prev_url used_recent conflicting_url)) ∧
    (∀ n, ∃ r, get_next_recipe_avoiding_conflict recipes prev_url used_recent conflicting_url n
        = some r ∧ r ∈ firstNonemptyTier recipes prev_url used_recent conflicting_url) ∧
    (∀ r ∈ firstNonemptyTier recipes prev_url used_recent conflicting_url,
      ∃ n, get_next_recipe_avoiding_conflict recipes prev_url used_recent conflicting_url n
        = some r) ∧
    (∀ r, r ∈ level1_options recipes prev_url used_recent conflicting_url ↔
      r ∈ recipes ∧ prev_url ≠ some r.url ∧ r.url ∉ used_recent ∧
        conflicting_url ≠ some r.url) ∧
    (∀ r, r ∈ level2_options recipes prev_url conflicting_url ↔
      r ∈ recipes ∧ prev_url ≠ some r.url ∧ conflicting_url ≠ some r.url) ∧
    (∀ r, r ∈ level3_options recipes conflicting_url ↔
      r ∈ recipes ∧ conflicting_url ≠ some r.url) := by
  refine ⟨getNext_eq_pick recipes prev_url used_recent conflicting_url, ?_, ?_, ?_, ?_, ?_⟩
  · intro n
    obtain ⟨r, hr, hmem⟩ := pickUniform_some n _
      (firstNonemptyTier_ne_nil recipes prev_url used_recent conflicting_url hne)
    exact ⟨r, by rw [getNext_eq_pick]; exact hr, hmem⟩
  · intro r hr
    obtain ⟨n, hn⟩ := pickUniform_surj _ r hr
    exact ⟨n, by rw [getNext_eq_pick]; exact hn⟩
  · exact level1_mem recipes prev_url used_recent conflicting_url
  · exact level2_mem recipes prev_url conflicting_url
  · exact level3_mem recipes conflicting_url

/-! ### Claim C7 -/

/-- Claim C7: a pool with fewer than two recipes makes the run fail with
the configuration error and abort before producing any events, lookups
or output. -/
theorem claim_C7 (cfg : Config) (h : cfg.recipes.length < 2) :
    create_meal_prep_calendar cfg = .error .needAtLeastTwoRecipes ∧
    runEvents cfg = [] ∧ runLookups cfg = [] ∧ runOk cfg = false := by
  have he : create_meal_prep_calendar cfg = .error .needAtLeastTwoRecipes := by
    simp [create_meal_prep_calendar, h]
  exact ⟨he, by simp [runEvents, he], by simp [runLookups, he], by simp [runOk, he]⟩

/-! ### Claim C9: lookup memoization -/

/-- The urls of the allergen-annotation lookups in a log, in order. -/
def annotateUrls (l : List Lookup) : List String :=
  (l.filter (fun lk => decide (lk.kind = .annotate))).map (fun lk => lk.url)

/-- The allergy-cache invariant: each url was annotated at most once,
and every annotated url is in the cache. -/
def CacheInv (s : RunState) : Prop :=
  (annotateUrls s.lookups).Nodup ∧ ∀ u ∈ annotateUrls s.lookups, u ∈ s.cache

theorem annotateUrls_append (a b : List Lookup) :
    annotateUrls (a ++ b) = annotateUrls a ++ annotateUrls b := by
  simp [annotateUrls, List.filter_append]

theorem annotateUrls_title (u : String) :
    annotateUrls [⟨.title, u⟩] = [] := by
  simp [annotateUrls]

theorem annotateUrls_nil : annotateUrls ([] : List Lookup) = [] := rfl

theorem lunchStep_CacheInv (cfg : Config) (day : Nat) (s s1 : RunState)
    (h : lunchStep cfg day s = .ok s1) (hI : CacheInv s) : CacheInv s1 := by
  obtain ⟨hnd, hsub⟩ := hI
  rcases lunchStep_ok_cases cfg day s s1 h with ⟨cur, hr, hc, rfl⟩ | ⟨r, k2, hr, ha, rfl⟩
  · constructor
    · simp only [lunchRetainState, annotateUrls_append, annotateUrls_title, List.append_nil]
      exact hnd
    · intro u hu
      simp only [lunchRetainState, annotateUrls_append, annotateUrls_title,
        List.append_nil] at hu ⊢
      exact hsub u hu
  · by_cases hP : cfg.hasAllergies ∧ r.url ∉ s.cache
    · constructor
      · simp only [lunchAssignState, if_pos hP, annotateUrls_append, annotateUrls_title]
        have h2 : annotateUrls [⟨.annotate, r.url⟩] = [r.url] := by simp [annotateUrls]
        rw [h2]
        simp only [List.nil_append, List.append_nil]
        rw [List.nodup_append]
        refine ⟨hnd, List.nodup_singleton _, ?_⟩
        intro u hu hu2
        simp only [List.mem_singleton] at hu2
        subst hu2
        exact hP.2 (hsub r.url hu)
      · intro u hu
        simp only [lunchAssignState, if_pos hP, annotateUrls_append, annotateUrls_title,
          List.nil_append, List.append_nil] at hu ⊢
        have h2 : annotateUrls [⟨.annotate, r.url⟩] = [r.url] := by simp [annotateUrls]
        rw [h2] at hu
        rcases List.mem_append.mp hu with hu3 | hu3
        · exact List.mem_append.mpr (Or.inl (hsub u hu3))
        · simp only [List.mem_singleton] at hu3
          subst hu3
          exact List.mem_append.mpr (Or.inr (by simp))
    · constructor
      · simp only [lunchAssignState, if_neg hP, annotateUrls_append, annotateUrls_title,
          annotateUrls_nil, List.append_nil, List.nil_append]
        exact hnd
      · intro u hu
        simp only [lunchAssignState, if_neg hP, annotateUrls_append, annotateUrls_title,
          List.nil_append, List.append_nil] at hu ⊢
        simp only [annotateUrls, List.filter_nil, List.map_nil, List.append_nil] at hu
        exact hsub u hu

theorem dinnerStep_CacheInv (cfg : Config) (day : Nat) (s s1 : RunState)
    (h : dinnerStep cfg day s = .ok s1) (hI : CacheInv s) : CacheInv s1 := by
  obtain ⟨hnd, hsub⟩ := hI
  rcases dinnerStep_ok_cases cfg day s s1 h with ⟨cur, hr, hc, rfl⟩ | ⟨r, k2, hr, ha, rfl⟩
  · constructor
    · simp only [dinnerRetainState, annotateUrls_append, annotateUrls_title, List.append_nil]
      exact hnd
    · intro u hu
      simp only [dinnerRetainState, annotateUrls_append, annotateUrls_title,
        List.append_nil] at hu ⊢
      exact hsub u hu
  · by_cases hP : cfg.hasAllergies ∧ r.url ∉ s.cache
    · constructor
      · simp only [dinnerAssignState, if_pos hP, annotateUrls_append, annotateUrls_title]
        have h2 : annotateUrls [⟨.annotate, r.url⟩] = [r.url] := by simp [annotateUrls]
        rw [h2]
        simp only [List.nil_append, List.append_nil]
        rw [List.nodup_append]
        refine ⟨hnd, List.nodup_singleton _, ?_⟩
        intro u hu hu2
        simp only [List.mem_singleton] at hu2
        subst hu2
        exact hP.2 (hsub r.url hu)
      · intro u hu
        simp only [dinnerAssignState, if_pos hP, annotateUrls_append, annotateUrls_title,
          List.nil_append, List.append_nil] at hu ⊢
        have h2 : annotateUrls [⟨.annotate, r.url⟩] = [r.url] := by simp [annotateUrls]
        rw [h2] at hu
        rcases List.mem_append.mp hu with hu3 | hu3
        · exact List.mem_append.mpr (Or.inl (hsub u hu3))
        · simp only [List.mem_singleton] at hu3
          subst hu3
          exact List.mem_append.mpr (Or.inr (by simp))
    · constructor
      · simp only [dinnerAssignState, if_neg hP, annotateUrls_append, annotateUrls_title,
          annotateUrls_nil, List.append_nil, List.nil_append]
        exact hnd
      · intro u hu
        simp only [dinnerAssignState, if_neg hP, annotateUrls_append, annotateUrls_title,
          List.nil_append, List.append_nil] at hu ⊢
        simp only [annotateUrls, List.filter_nil, List.map_nil, List.append_nil] at hu
        exact hsub u hu

theorem dayStep_CacheInv (cfg : Config) (day : Nat) (s s1 : RunState)
    (h : dayStep cfg day s = .ok s1) (hI : CacheInv s) : CacheInv s1 := by
  obtain ⟨smid, hl, hd⟩ := dayStep_ok_split cfg day s s1 h
  exact dinnerStep_CacheInv cfg day smid s1 hd (lunchStep_CacheInv cfg day s smid hl hI)

theorem loopState_CacheInv (cfg : Config) (j : Nat) (sj : RunState)
    (h : loopState cfg j = .ok sj) : CacheInv sj := by
  induction j generalizing sj with
  | zero =>
    have h2 : sj = initState := by
      simp only [loopState, daysLoop] at h
      exact (Except.ok.inj h).symm
    rw [h2]
    exact ⟨by simp [initState, annotateUrls], by simp [initState, annotateUrls]⟩
  | succ n ih =>
    obtain ⟨sn, hsn⟩ := loopState_le_ok cfg n (n + 1) sj (by omega) h
    have hstep : dayStep cfg n sn = .ok sj := by
      rw [← loopState_succ_eq cfg n sn hsn]
      exact h
    exact dayStep_CacheInv cfg n sn sj hstep (ih sn hsn)

theorem overflowGo_lookups_title (cfg : Config) (lr dr : Recipe) (k : Nat) :
    ∀ (lrem drem d0 : Nat), ∀ lk ∈ (overflowGo cfg lr dr k lrem drem d0).2,
      lk.kind = .title := by
  induction k with
  | zero => intro lrem drem d0 lk hlk; simp [overflowGo] at hlk
  | succ n ih =>
    intro lrem drem d0 lk hlk
    simp only [overflowGo, List.append_assoc, List.mem_append] at hlk
    rcases hlk with hx | hx | hx
    · split_ifs at hx <;> simp only [List.mem_singleton, List.not_mem_nil] at hx
      subst hx
      rfl
    · split_ifs at hx <;> simp only [List.mem_singleton, List.not_mem_nil] at hx
      subst hx
      rfl
    · exact ih (lrem - 1) (drem - 1) (d0 + 1) lk hx

theorem overflowPart_lookups_title (cfg : Config) (s : RunState) :
    ∀ lk ∈ (overflowPart cfg s).2, lk.kind = .title := by
  intro lk hlk
  unfold overflowPart at hlk
  split_ifs at hlk with h1
  · cases hl : s.lunch.current with
    | none => rw [hl] at hlk; cases s.dinner.current <;> simp at hlk
    | some lr =>
      cases hd : s.dinner.current with
      | none => rw [hl, hd] at hlk; simp at hlk
      | some dr =>
        rw [hl, hd] at hlk
        exact overflowGo_lookups_title cfg lr dr _ _ _ _ lk hlk
  · simp at hlk

theorem count_le_one_of_nodup (l : List Lookup) (hnd : (annotateUrls l).Nodup) (u : String) :
    (l.filter (fun lk => decide (lk.kind = .annotate ∧ lk.url = u))).length ≤ 1 := by
  induction l with
  | nil => simp
  | cons lk t ih =>
    by_cases hk : lk.kind = .annotate
    · have hcons : annotateUrls (lk :: t) = lk.url :: annotateUrls t := by
        simp [annotateUrls, List.filter_cons, hk]
      rw [hcons] at hnd
      obtain ⟨hnotin, hnd2⟩ := List.nodup_cons.mp hnd
      by_cases hu : lk.url = u
      · have hzero :
            (t.filter (fun lk2 => decide (lk2.kind = .annotate ∧ lk2.url = u))).length = 0 := by
          rw [List.length_eq_zero, List.filter_eq_nil_iff]
          intro lk2 hlk2
          simp only [decide_eq_true_eq, not_and]
          intro hk2 hu2
          refine absurd ?_ hnotin
          rw [hu, ← hu2]
          exact List.mem_map_of_mem _ (List.mem_filter.mpr ⟨hlk2, by simp [hk2]⟩)
        simp only [List.filter_cons]
        rw [if_pos (by simp [hk, hu])]
        simp only [List.length_cons]
        omega
      · simp only [List.filter_cons]
        rw [if_neg (by simp [hu])]
        exact ih hnd2
    · have hcons : annotateUrls (lk :: t) = annotateUrls t := by
        simp [annotateUrls, List.filter_cons, hk]
      rw [hcons] at hnd
      simp only [List.filter_cons]
      rw [if_neg (by simp [hk])]
      exact ih hnd

/-- Claim C9 (amended): the allergen-annotation lookups are memoized by
url — over any run each distinct url is annotated at most once (the
`recipe_cache` guard).  Title resolution is NOT memoized; the same url
can be queried many times, as `claim_C9_counterexample` shows, which is
what refutes the claim as frozen. -/
theorem claim_C9 (cfg : Config) (u : String) :
    ((runLookups cfg).filter
      (fun lk => decide (lk.kind = .annotate ∧ lk.url = u))).length ≤ 1 := by
  cases h : create_meal_prep_calendar cfg with
  | error e => simp [runLookups, h]
  | ok p =>
    obtain ⟨evs, lks⟩ := p
    rw [runLookups_eq cfg evs lks h]
    obtain ⟨h2, sT, hT, hevs, hlks⟩ := run_ok_decomp cfg evs lks h
    obtain ⟨hnd, hsub⟩ := loopState_CacheInv cfg (totalDays cfg) sT hT
    rw [hlks]
    have hnd2 : (annotateUrls (sT.lookups ++ (overflowPart cfg sT).2)).Nodup := by
      rw [annotateUrls_append]
      have hz : annotateUrls (overflowPart cfg sT).2 = [] := by
        unfold annotateUrls
        rw [List.map_eq_nil_iff, List.filter_eq_nil_iff]
        intro lk hlk
        simp [overflowPart_lookups_title cfg sT lk hlk]
      rw [hz, List.append_nil]
      exact hnd
    exact count_le_one_of_nodup _ hnd2 u

/-- Counterexample to claim C9 as frozen: in a successful run the title
resolution for url "a" is invoked many more times than once (once per
assignment and once per emitted meal event). -/
theorem claim_C9_counterexample :
    runOk cfgW = true ∧
    2 ≤ ((runLookups cfgW).filter
      (fun lk => decide (lk.kind = .title ∧ lk.url = "a"))).length := by
  decide

/-! ### Claim C5: determinism -/

/-- The date-free observation of an event: kind, slot, day index,
recipe, new-assignment flag (everything except the calendar date). -/
def eObs (e : Event) : EvKind × Slot × Nat × Recipe × Bool :=
  (e.kind, e.slot, e.day, e.recipe, e.isNew)

/-- State correspondence for runs differing only in start date and
allergy flag: identical slot states and draw counter, identical
date-free event streams. -/
def obsEq (s s2 : RunState) : Prop :=
  s.lunch = s2.lunch ∧ s.dinner = s2.dinner ∧ s.k = s2.k ∧
  s.events.map eObs = s2.events.map eObs

def obsEqE : Except ConfigurationError RunState → Except ConfigurationError RunState → Prop
  | .error e1, .error e2 => e1 = e2
  | .ok s, .ok s2 => obsEq s s2
  | _, _ => False

theorem lunchAssign_obs (cfg : Config) (sd : Int) (ha : Bool) (d : Nat) (s s2 : RunState)
    (h1 : s.lunch = s2.lunch) (h2 : s.dinner = s2.dinner) (h3 : s.k = s2.k) :
    lunchAssign cfg d s
      = lunchAssign { cfg with start_date := sd, hasAllergies := ha } d s2 := by
  unfold lunchAssign lunchSelect lunchConflictUrl
  rw [h1, h2, h3]

theorem dinnerAssign_obs (cfg : Config) (sd : Int) (ha : Bool) (d : Nat) (s s2 : RunState)
    (h1 : s.lunch = s2.lunch) (h2 : s.dinner = s2.dinner) (h3 : s.k = s2.k) :
    dinnerAssign cfg d s
      = dinnerAssign { cfg with start_date := sd, hasAllergies := ha } d s2 := by
  unfold dinnerAssign dinnerSelect dinnerConflictUrl
  rw [h1, h2, h3]

theorem lunchStep_assign_err (cfg : Config) (day : Nat) (s : RunState)
    (e : ConfigurationError) (hr : s.lunch.remaining = 0)
    (ha : lunchAssign cfg day s = .error e) : lunchStep cfg day s = .error e := by
  simp [lunchStep, hr, ha]

theorem dinnerStep_assign_err (cfg : Config) (day : Nat) (s : RunState)
    (e : ConfigurationError) (hr : s.dinner.remaining = 0)
    (ha : dinnerAssign cfg day s = .error e) : dinnerStep cfg day s = .error e := by
  simp [dinnerStep, hr, ha]

theorem lunchStep_retain_none (cfg : Config) (day : Nat) (s : RunState)
    (hr : s.lunch.remaining ≠ 0) (hc : s.lunch.current = none) :
    lunchStep cfg day s = .error .noCurrentRecipe := by
  simp [lunchStep, hr, lunchEmit, hc]

theorem dinnerStep_retain_none (cfg : Config) (day : Nat) (s : RunState)
    (hr : s.dinner.remaining ≠ 0) (hc : s.dinner.current = none) :
    dinnerStep cfg day s = .error .noCurrentRecipe := by
  simp [dinnerStep, hr, dinnerEmit, hc]

theorem lunchStep_obs (cfg : Config) (sd : Int) (ha : Bool) (d : Nat) (s s2 : RunState)
    (h : obsEq s s2) :
    obsEqE (lunchStep cfg d s)
      (lunchStep { cfg with start_date := sd, hasAllergies := ha } d s2) := by
  obtain ⟨h1, h2, h3, h4⟩ := h
  by_cases hr : s.lunch.remaining = 0
  · have hr2 : s2.lunch.remaining = 0 := by rw [← h1]; exact hr
    have hass := lunchAssign_obs cfg sd ha d s s2 h1 h2 h3
    cases ha2 : lunchAssign cfg d s with
    | error e =>
      rw [lunchStep_assign_err cfg d s e hr ha2,
        lunchStep_assign_err _ d s2 e hr2 (by rw [← hass]; exact ha2)]
      rfl
    | ok p =>
      obtain ⟨r, k2⟩ := p
      rw [lunchStep_assign_eq cfg d s r k2 hr ha2,
        lunchStep_assign_eq _ d s2 r k2 hr2 (by rw [← hass]; exact ha2)]
      refine ⟨by simp [lunchAssignState, h1], by simp [lunchAssignState, h2],
        by simp [lunchAssignState], ?_⟩
      simp [lunchAssignState, List.map_append, h4, eObs]
  · have hr2 : s2.lunch.remaining ≠ 0 := by rw [← h1]; exact hr
    cases hc : s.lunch.current with
    | none =>
      rw [lunchStep_retain_none cfg d s hr hc,
        lunchStep_retain_none _ d s2 hr2 (by rw [← h1]; exact hc)]
      rfl
    | some cur =>
      rw [lunchStep_retain_eq cfg d s cur hr hc,
        lunchStep_retain_eq _ d s2 cur hr2 (by rw [← h1]; exact hc)]
      refine ⟨by simp [lunchRetainState, h1], by simp [lunchRetainState, h2],
        by simp [lunchRetainState, h3], ?_⟩
      simp [lunchRetainState, List.map_append, h4, eObs]

theorem dinnerStep_obs (cfg : Config) (sd : Int) (ha : Bool) (d : Nat) (s s2 : RunState)
    (h : obsEq s s2) :
    obsEqE (dinnerStep cfg d s)
      (dinnerStep { cfg with start_date := sd, hasAllergies := ha } d s2) := by
  obtain ⟨h1, h2, h3, h4⟩ := h
  by_cases hr : s.dinner.remaining = 0
  · have hr2 : s2.dinner.remaining = 0 := by rw [← h2]; exact hr
    have hass := dinnerAssign_obs cfg sd ha d s s2 h1 h2 h3
    cases ha2 : dinnerAssign cfg d s with
    | error e =>
      rw [dinnerStep_assign_err cfg d s e hr ha2,
        dinnerStep_assign_err _ d s2 e hr2 (by rw [← hass]; exact ha2)]
      rfl
    | ok p =>
      obtain ⟨r, k2⟩ := p
      rw [dinnerStep_assign_eq cfg d s r k2 hr ha2,
        dinnerStep_assign_eq _ d s2 r k2 hr2 (by rw [← hass]; exact ha2)]
      refine ⟨by simp [dinnerAssignState, h1], by simp [dinnerAssignState, h2],
        by simp [dinnerAssignState], ?_⟩
      simp [dinnerAssignState, List.map_append, h4, eObs]
  · have hr2 : s2.dinner.remaining ≠ 0 := by rw [← h2]; exact hr
    cases hc : s.dinner.current with
    | none =>
      rw [dinnerStep_retain_none cfg d s hr hc,
        dinnerStep_retain_none _ d s2 hr2 (by rw [← h2]; exact hc)]
      rfl
    | some cur =>
      rw [dinnerStep_retain_eq cfg d s cur hr hc,
        dinnerStep_retain_eq _ d s2 cur hr2 (by rw [← h2]; exact hc)]
      refine ⟨by simp [dinnerRetainState, h1], by simp [dinnerRetainState, h2],
        by simp [dinnerRetainState, h3], ?_⟩
      simp [dinnerRetainState, List.map_append, h4, eObs]

theorem dayStep_obs (cfg : Config) (sd : Int) (ha : Bool) (d : Nat) (s s2 : RunState)
    (h : obsEq s s2) :
    obsEqE (dayStep cfg d s)
      (dayStep { cfg with start_date := sd, hasAllergies := ha } d s2) := by
  have hrel := lunchStep_obs cfg sd ha d s s2 h
  unfold dayStep
  cases hl : lunchStep cfg d s with
  | error e =>
    cases hl2 : lunchStep { cfg with start_date := sd, hasAllergies := ha } d s2 with
    | error e2 =>
      rw [hl, hl2] at hrel
      simp only [Except.bind]
      exact hrel
    | ok t2 => rw [hl, hl2] at hrel; exact absurd hrel (by simp [obsEqE])
  | ok t =>
    cases hl2 : lunchStep { cfg with start_date := sd, hasAllergies := ha } d s2 with
    | error e2 => rw [hl, hl2] at hrel; exact absurd hrel (by simp [obsEqE])
    | ok t2 =>
      rw [hl, hl2] at hrel
      simp only [Except.bind]
      exact dinnerStep_obs cfg sd ha d t t2 hrel

theorem daysLoop_obs (cfg : Config) (sd : Int) (ha : Bool) (n : Nat) :
    ∀ (d : Nat) (s s2 : RunState), obsEq s s2 →
    obsEqE (daysLoop cfg n d s)
      (daysLoop { cfg with start_date := sd, hasAllergies := ha } n d s2) := by
  induction n with
  | zero => intro d s s2 h; exact h
  | succ m ih =>
    intro d s s2 h
    have hrel := dayStep_obs cfg sd ha d s s2 h
    simp only [daysLoop]
    cases h1 : dayStep cfg d s with
    | error e =>
      cases h2 : dayStep { cfg with start_date := sd, hasAllergies := ha } d s2 with
      | error e2 =>
        rw [h1, h2] at hrel
        simp only [Except.bind]
        exact hrel
      | ok t2 => rw [h1, h2] at hrel; exact absurd hrel (by simp [obsEqE])
    | ok t =>
      cases h2 : dayStep { cfg with start_date := sd, hasAllergies := ha } d s2 with
      | error e2 => rw [h1, h2] at hrel; exact absurd hrel (by simp [obsEqE])
      | ok t2 =>
        rw [h1, h2] at hrel
        simp only [Except.bind]
        exact ih (d + 1) t t2 hrel

theorem overflowGo_obs (cfg : Config) (sd : Int) (ha : Bool) (lr dr : Recipe) (k : Nat) :
    ∀ (lrem drem d0 : Nat),
    ((overflowGo cfg lr dr k lrem drem d0).1).map eObs
      = ((overflowGo { cfg with start_date := sd, hasAllergies := ha }
          lr dr k lrem drem d0).1).map eObs := by
  induction k with
  | zero => intro lrem drem d0; rfl
  | succ m ih =>
    intro lrem drem d0
    simp only [overflowGo, List.map_append]
    rw [ih (lrem - 1) (drem - 1) (d0 + 1)]
    by_cases hl : 0 < lrem
    · by_cases hd : 0 < drem <;> simp [hl, hd, eObs]
    · by_cases hd : 0 < drem <;> simp [hl, hd, eObs]

theorem overflowPart_obs (cfg : Config) (sd : Int) (ha : Bool) (s s2 : RunState)
    (h : obsEq s s2) :
    ((overflowPart cfg s).1).map eObs
      = ((overflowPart { cfg with start_date := sd, hasAllergies := ha } s2).1).map eObs := by
  obtain ⟨h1, h2, h3, h4⟩ := h
  unfold overflowPart
  rw [← h1, ← h2]
  by_cases hpos : 0 < s.lunch.remaining ∨ 0 < s.dinner.remaining
  · rw [if_pos hpos, if_pos hpos]
    cases s.lunch.current with
    | none => cases s.dinner.current <;> rfl
    | some lr =>
      cases s.dinner.current with
      | none => rfl
      | some dr =>
        exact overflowGo_obs cfg sd ha lr dr _ _ _ _
  · rw [if_neg hpos, if_neg hpos]

/-- Runs differing only in start date and allergy flag succeed or fail
identically and produce the same date-free event stream. -/
theorem run_obs (cfg : Config) (sd : Int) (ha : Bool) :
    runOk cfg = runOk { cfg with start_date := sd, hasAllergies := ha } ∧
    (runEvents cfg).map eObs
      = (runEvents { cfg with start_date := sd, hasAllergies := ha }).map eObs := by
  have hinit : obsEq initState initState := ⟨rfl, rfl, rfl, rfl⟩
  have hloop := daysLoop_obs cfg sd ha (totalDays cfg) 0 initState initState hinit
  by_cases hlen : cfg.recipes.length < 2
  · have e1 : create_meal_prep_calendar cfg = .error .needAtLeastTwoRecipes := by
      simp [create_meal_prep_calendar, hlen]
    have e2 : create_meal_prep_calendar { cfg with start_date := sd, hasAllergies := ha }
        = .error .needAtLeastTwoRecipes := by
      simp [create_meal_prep_calendar, hlen]
    simp [runOk, runEvents, e1, e2]
  · cases h1 : daysLoop cfg (totalDays cfg) 0 initState with
    | error e =>
      cases h2 : daysLoop { cfg with start_date := sd, hasAllergies := ha }
          (totalDays cfg) 0 initState with
      | error e2 =>
        have r1 : create_meal_prep_calendar cfg = .error e := by
          simp [create_meal_prep_calendar, hlen, h1]
        have r2 : create_meal_prep_calendar { cfg with start_date := sd, hasAllergies := ha }
            = .error e2 := by
          simp [create_meal_prep_calendar, hlen]
          rw [show totalDays { cfg with start_date := sd, hasAllergies := ha }
            = totalDays cfg from rfl, h2]
        simp [runOk, runEvents, r1, r2]
      | ok t2 => rw [h1, h2] at hloop; exact absurd hloop (by simp [obsEqE])
    | ok sT =>
      cases h2 : daysLoop { cfg with start_date := sd, hasAllergies := ha }
          (totalDays cfg) 0 initState with
      | error e2 => rw [h1, h2] at hloop; exact absurd hloop (by simp [obsEqE])
      | ok sT2 =>
        rw [h1, h2] at hloop
        have r1 : create_meal_prep_calendar cfg
            = .ok (sT.events ++ (overflowPart cfg sT).1,
                   sT.lookups ++ (overflowPart cfg sT).2) := by
          simp [create_meal_prep_calendar, hlen, h1]
        have r2 : create_meal_prep_calendar { cfg with start_date := sd, hasAllergies := ha }
            = .ok (sT2.events ++
                (overflowPart { cfg with start_date := sd, hasAllergies := ha } sT2).1,
              sT2.lookups ++
                (overflowPart { cfg with start_date := sd, hasAllergies := ha } sT2).2) := by
          simp [create_meal_prep_calendar, hlen]
          rw [show totalDays { cfg with start_date := sd, hasAllergies := ha }
            = totalDays cfg from rfl, h2]
        refine ⟨by simp [runOk, r1, r2], ?_⟩
        rw [runEvents_eq cfg _ _ r1, runEvents_eq _ _ _ r2]
        rw [List.map_append, List.map_append]
        rw [hloop.2.2.2, overflowPart_obs cfg sd ha sT sT2 hloop]

/-- Claim C5: determinism.  Two runs with identical pool order,
identical seed (one seeded stream per run, never reseeded), identical
weeks and identical forced first urls succeed identically and produce
identical day/slot/recipe/new-flag event sequences — regardless of
start date and allergy configuration, which affect only dates and
enrichment. -/
theorem claim_C5 (cfg1 cfg2 : Config) (seed : Nat)
    (hrec : cfg1.recipes = cfg2.recipes) (hw : cfg1.num_weeks = cfg2.num_weeks)
    (hr1 : cfg1.rng = seedStream seed) (hr2 : cfg2.rng = seedStream seed)
    (hfl : cfg1.first_lunch_url = cfg2.first_lunch_url)
    (hfd : cfg1.first_dinner_url = cfg2.first_dinner_url) :
    runOk cfg1 = runOk cfg2 ∧
    (runEvents cfg1).map eObs = (runEvents cfg2).map eObs := by
  obtain ⟨r1, w1, sd1, f1, g1, a1, rng1⟩ := cfg1
  obtain ⟨r2, w2, sd2, f2, g2, a2, rng2⟩ := cfg2
  simp only at hrec hw hr1 hr2 hfl hfd
  subst hrec hw hfl hfd hr1 hr2
  exact run_obs ⟨r1, w1, sd1, f1, g1, a1, seedStream seed⟩ sd2 a2

def cfgS1 : Config :=
  { recipes := [⟨"a", 2⟩, ⟨"b", 3⟩], num_weeks := 1, start_date := 0,
    first_lunch_url := none, first_dinner_url := none, hasAllergies := false,
    rng := seedStream 42 }

def cfgS2 : Config :=
  { recipes := [⟨"a", 2⟩, ⟨"b", 3⟩], num_weeks := 1, start_date := 5,
    first_lunch_url := none, first_dinner_url := none, hasAllergies := true,
    rng := seedStream 42 }

theorem claim_C5_witness :
    runOk cfgS1 = runOk cfgS2 ∧
    (runEvents cfgS1).map eObs = (runEvents cfgS2).map eObs :=
  claim_C5 cfgS1 cfgS2 42 rfl rfl rfl rfl rfl rfl

/-! ### Claim C2: lifespan runs -/

theorem loopState_currents (cfg : Config) (T : Nat) (sT : RunState) (hT1 : 1 ≤ T)
    (hT : loopState cfg T = .ok sT) :
    ∃ lr dr, sT.lunch.current = some lr ∧ sT.dinner.current = some dr := by
  obtain ⟨t, rfl⟩ : ∃ t, T = t + 1 := ⟨T - 1, by omega⟩
  obtain ⟨st, hst⟩ := loopState_le_ok cfg t (t + 1) sT (by omega) hT
  have hstep : dayStep cfg t st = .ok sT := by
    rw [← loopState_succ_eq cfg t st hst]
    exact hT
  obtain ⟨_, lr, dr, _, hcl, hcd, _⟩ := dayStep_char cfg t st sT hstep
  exact ⟨lr, dr, hcl, hcd⟩

theorem run_overflow_mem (cfg : Config) (evs : List Event) (lks : List Lookup)
    (h : create_meal_prep_calendar cfg = .ok (evs, lks)) (sT : RunState)
    (hT : loopState cfg (totalDays cfg) = .ok sT) :
    ∀ e2 ∈ evs, totalDays cfg ≤ e2.day → e2 ∈ (overflowPart cfg sT).1 := by
  obtain ⟨h2, sT2, hT2, hevs, hlks⟩ := run_ok_decomp cfg evs lks h
  have hsame : sT2 = sT := by
    rw [hT] at hT2
    exact (Except.ok.inj hT2).symm
  subst hsame
  obtain ⟨tail, htail, hstamp, _⟩ := daysLoop_events cfg (totalDays cfg) 0 initState sT2 hT2
  intro e2 he2 hday
  rw [hevs] at he2
  rcases List.mem_append.mp he2 with hx | hx
  · rw [show sT2.events = tail from by simpa [initState] using htail] at hx
    exact absurd (hstamp e2 hx).2.1 (by omega)
  · exact hx

theorem overflowPart_eq (cfg : Config) (s : RunState) (lr dr : Recipe)
    (hl : s.lunch.current = some lr) (hd : s.dinner.current = some dr)
    (hpos : 0 < s.lunch.remaining ∨ 0 < s.dinner.remaining) :
    overflowPart cfg s = overflowGo cfg lr dr
      (max s.lunch.remaining s.dinner.remaining)
      s.lunch.remaining s.dinner.remaining (totalDays cfg) := by
  unfold overflowPart
  rw [if_pos hpos, hl, hd]

theorem overflow_slot_filter (cfg : Config) (s : RunState) (sl : Slot) (rx : Recipe)
    (hcx : (slotSt s sl).current = some rx)
    (lr dr : Recipe) (hl : s.lunch.current = some lr) (hd : s.dinner.current = some dr)
    (hpos : 0 < s.lunch.remaining ∨ 0 < s.dinner.remaining) :
    (overflowPart cfg s).1.filter (fun e2 => decide (e2.slot = sl))
      = slotRun cfg sl rx (totalDays cfg) ((slotSt s sl).remaining) := by
  rw [overflowPart_eq cfg s lr dr hl hd hpos]
  cases sl with
  | lunch =>
    have hrx : rx = lr := by
      have h2 : s.lunch.current = some rx := hcx
      rw [hl] at h2
      exact (Option.some.inj h2).symm
    subst hrx
    exact overflowGo_lunch_filter cfg rx dr _ _ _ _ (le_max_left _ _)
  | dinner =>
    have hrx : rx = dr := by
      have h2 : s.dinner.current = some rx := hcx
      rw [hd] at h2
      exact (Option.some.inj h2).symm
    subst hrx
    exact overflowGo_dinner_filter cfg lr rx _ _ _ _ (le_max_right _ _)

/-- Characterization of a slot's overflow events inside a run: every
event of the slot on or past the horizon is a continuation of the
slot's horizon-time recipe and fits in the remaining-day window, and
every remaining day produces one such event. -/
theorem run_overflow_char (cfg : Config) (evs : List Event) (lks : List Lookup)
    (h : create_meal_prep_calendar cfg = .ok (evs, lks)) (sT : RunState)
    (hT : loopState cfg (totalDays cfg) = .ok sT) (sl : Slot) (rx : Recipe)
    (hcx : (slotSt sT sl).current = some rx) (hT1 : 1 ≤ totalDays cfg) :
    (∀ oe ∈ evs, totalDays cfg ≤ oe.day → oe.slot = sl →
      oe.recipe = rx ∧ oe.isNew = false ∧ oe.kind = .meal ∧
      oe.day < totalDays cfg + (slotSt sT sl).remaining) ∧
    (∀ i, i < (slotSt sT sl).remaining →
      (⟨.meal, sl, totalDays cfg + i, mealDate cfg (totalDays cfg + i), rx, false⟩ : Event)
        ∈ evs) := by
  obtain ⟨lr, dr, hl, hd⟩ := loopState_currents cfg (totalDays cfg) sT hT1 hT
  obtain ⟨h2, sT2, hT2, hevs, hlks⟩ := run_ok_decomp cfg evs lks h
  have hsame : sT2 = sT := by
    rw [hT] at hT2
    exact (Except.ok.inj hT2).symm
  subst hsame
  by_cases hpos : 0 < sT2.lunch.remaining ∨ 0 < sT2.dinner.remaining
  · have hfilter := overflow_slot_filter cfg sT2 sl rx hcx lr dr hl hd hpos
    constructor
    · intro oe hoe hoday hosl
      have hoin : oe ∈ (overflowPart cfg sT2).1 :=
        run_overflow_mem cfg evs lks h sT2 hT2 oe hoe hoday
      have hmemf : oe ∈ (overflowPart cfg sT2).1.filter (fun e2 => decide (e2.slot = sl)) :=
        List.mem_filter.mpr ⟨hoin, by simp [hosl]⟩
      rw [hfilter] at hmemf
      obtain ⟨i, hi, hoeq⟩ := (slotRun_mem cfg sl rx _ _ oe).mp hmemf
      subst hoeq
      refine ⟨rfl, rfl, rfl, ?_⟩
      show totalDays cfg + i < totalDays cfg + (slotSt sT2 sl).remaining
      omega
    · intro i hi
      have hmem : (⟨.meal, sl, totalDays cfg + i, mealDate cfg (totalDays cfg + i),
          rx, false⟩ : Event)
          ∈ slotRun cfg sl rx (totalDays cfg) ((slotSt sT2 sl).remaining) :=
        (slotRun_mem cfg sl rx _ _ _).mpr ⟨i, hi, rfl⟩
      rw [← hfilter] at hmem
      have hmem2 := List.mem_of_mem_filter hmem
      rw [hevs]
      exact List.mem_append.mpr (Or.inr hmem2)
  · have hempty : overflowPart cfg sT2 = ([], []) := by
      unfold overflowPart
      rw [if_neg hpos]
    constructor
    · intro oe hoe hoday hosl
      have hoin : oe ∈ (overflowPart cfg sT2).1 :=
        run_overflow_mem cfg evs lks h sT2 hT2 oe hoe hoday
      rw [hempty] at hoin
      simp at hoin
    · intro i hi
      exfalso
      have hz : (slotSt sT2 sl).remaining = 0 := by
        cases sl with
        | lunch => show sT2.lunch.remaining = 0; omega
        | dinner => show sT2.dinner.remaining = 0; omega
      omega

theorem run_track (cfg : Config) (sl : Slot) (D : Nat) (r : Recipe)
    (sT : RunState) (hT : loopState cfg (totalDays cfg) = .ok sT)
    (s1 : RunState) (hs1 : loopState cfg (D + 1) = .ok s1)
    (hcur : (slotSt s1 sl).current = some r)
    (hrem : (slotSt s1 sl).remaining = r.days - 1) :
    ∀ k, 1 ≤ k → k ≤ r.days → D + k ≤ totalDays cfg →
      ∃ sk, loopState cfg (D + k) = .ok sk ∧ (slotSt sk sl).current = some r ∧
        (slotSt sk sl).remaining = r.days - k := by
  intro k
  induction k with
  | zero => intro h1 h2 h3; exact absurd h1 (by omega)
  | succ k ih =>
    intro h1 h2 h3
    by_cases hk : k = 0
    · subst hk
      exact ⟨s1, hs1, hcur, hrem⟩
    · obtain ⟨sk, hsk, hskcur, hskrem⟩ := ih (by omega) (by omega) (by omega)
      obtain ⟨sk1, hsk1⟩ := loopState_le_ok cfg (D + k + 1) (totalDays cfg) sT (by omega) hT
      have hstep : dayStep cfg (D + k) sk = .ok sk1 := by
        rw [← loopState_succ_eq cfg (D + k) sk hsk]
        exact hsk1
      obtain ⟨chunk, r0, hev, hcur0, hmem0, hrem0, hrem1⟩ :=
        dayStep_slot_char cfg (D + k) sk sk1 sl hstep
      have hne : (slotSt sk sl).remaining ≠ 0 := by
        rw [hskrem]
        omega
      obtain ⟨hpre, hdec⟩ := hrem1 hne
      have hr0 : r0 = r := by
        rw [hskcur] at hpre
        exact (Option.some.inj hpre).symm
      refine ⟨sk1, ?_, ?_, ?_⟩
      · show loopState cfg (D + (k + 1)) = .ok sk1
        rw [show D + (k + 1) = D + k + 1 by omega]
        exact hsk1
      · rw [hcur0, hr0]
      · rw [hdec, hskrem]
        omega

/-- Claim C2: a recipe newly assigned to a slot on a day `D` of the
nominal horizon with lifespan `N ≥ 1` is re-emitted by that slot, with
no new selection, on each of the following `N-1` consecutive days
(continuing into overflow days when they pass the horizon), and any
day-`D+N` meal event of that slot is again a fresh assignment. -/
theorem claim_C2 (cfg : Config) (evs : List Event) (lks : List Lookup) (e : Event)
    (h : create_meal_prep_calendar cfg = .ok (evs, lks))
    (he : e ∈ evs) (hk : e.kind = .meal) (hnew : e.isNew = true)
    (hD : e.day < totalDays cfg) (hN : 1 ≤ e.recipe.days) :
    (∀ k, 1 ≤ k → k ≤ e.recipe.days - 1 →
      ∃ e2 ∈ evs, e2.kind = .meal ∧ e2.slot = e.slot ∧ e2.day = e.day + k ∧
        e2.recipe = e.recipe ∧ e2.isNew = false) ∧
    (∀ e2 ∈ evs, e2.kind = .meal → e2.slot = e.slot → e.day < e2.day →
      e2.day < e.day + e.recipe.days → e2.recipe = e.recipe ∧ e2.isNew = false) ∧
    (∀ e2 ∈ evs, e2.kind = .meal → e2.slot = e.slot → e2.day = e.day + e.recipe.days →
      e2.isNew = true) := by
  obtain ⟨sd, s1, rE, hsd, hs1, hstep, hcurE, hinE, huniqE⟩ :=
    run_day_event cfg evs lks h e.slot e.day hD
  obtain ⟨hlen2, sT, hT, hevs, hlks⟩ := run_ok_decomp cfg evs lks h
  have heq := huniqE e he hk rfl rfl
  have hflag : (slotSt sd e.slot).remaining = 0 := by
    have h2 := congrArg Event.isNew heq
    rw [hnew] at h2
    exact of_decide_eq_true h2.symm
  have hrecipeE : rE = e.recipe := (congrArg Event.recipe heq).symm
  obtain ⟨chunkD, rD2, hevD, hcurD2, hmemD, hremD0, hremD1⟩ :=
    dayStep_slot_char cfg e.day sd s1 e.slot hstep
  have hrD2 : rD2 = rE := by
    rw [hcurE] at hcurD2
    exact (Option.some.inj hcurD2).symm
  have hrem1 : (slotSt s1 e.slot).remaining = e.recipe.days - 1 := by
    have h2 := hremD0 hflag
    rw [hrD2, hrecipeE] at h2
    exact h2
  have hcur1 : (slotSt s1 e.slot).current = some e.recipe := by
    rw [hcurE, hrecipeE]
  have htrack := run_track cfg e.slot e.day e.recipe sT hT s1 hs1 hcur1 hrem1
  have hmid : ∀ k, 1 ≤ k → k ≤ e.recipe.days - 1 → e.day + k < totalDays cfg →
      ((⟨.meal, e.slot, e.day + k, mealDate cfg (e.day + k), e.recipe, false⟩ : Event)
          ∈ evs) ∧
      (∀ e2 ∈ evs, e2.kind = .meal → e2.slot = e.slot → e2.day = e.day + k →
        e2 = ⟨.meal, e.slot, e.day + k, mealDate cfg (e.day + k), e.recipe, false⟩) := by
    intro k hk1 hk2 hk3
    obtain ⟨sk, hsk, hskcur, hskrem⟩ := htrack k hk1 (by omega) (by omega)
    obtain ⟨sd2, s12, r2, hsd2, hs12, hstep2, hcur2, hin2, huniq2⟩ :=
      run_day_event cfg evs lks h e.slot (e.day + k) hk3
    have hsame : sd2 = sk := by
      rw [hsk] at hsd2
      exact (Except.ok.inj hsd2).symm
    subst hsame
    have hflagk : decide ((slotSt sd2 e.slot).remaining = 0) = false := by
      apply decide_eq_false
      rw [hskrem]
      omega
    obtain ⟨chunk2, r3, hev3, hcur3, hmem3, hrem30, hrem31⟩ :=
      dayStep_slot_char cfg (e.day + k) sd2 s12 e.slot hstep2
    have hne : (slotSt sd2 e.slot).remaining ≠ 0 := by
      rw [hskrem]
      omega
    obtain ⟨hpre, _⟩ := hrem31 hne
    have hr3 : r3 = e.recipe := by
      rw [hskcur] at hpre
      exact (Option.some.inj hpre).symm
    have hr2e : r2 = e.recipe := by
      rw [hcur3] at hcur2
      exact (Option.some.inj hcur2).symm.trans hr3
    rw [hflagk, hr2e] at hin2 huniq2
    exact ⟨hin2, huniq2⟩
  have hatT : totalDays cfg ≤ e.day + e.recipe.days →
      (slotSt sT e.slot).current = some e.recipe ∧
      (slotSt sT e.slot).remaining = e.recipe.days - (totalDays cfg - e.day) := by
    intro hcross
    obtain ⟨sk, hsk, hskcur, hskrem⟩ :=
      htrack (totalDays cfg - e.day) (by omega) (by omega) (by omega)
    have hsame : sk = sT := by
      rw [show e.day + (totalDays cfg - e.day) = totalDays cfg by omega, hT] at hsk
      exact (Except.ok.inj hsk).symm
    rw [← hsame]
    exact ⟨hskcur, hskrem⟩
  refine ⟨?_, ?_, ?_⟩
  · intro k hk1 hk2
    by_cases hk3 : e.day + k < totalDays cfg
    · obtain ⟨hin, _⟩ := hmid k hk1 hk2 hk3
      exact ⟨_, hin, rfl, rfl, rfl, rfl, rfl⟩
    · have hcross : totalDays cfg ≤ e.day + e.recipe.days := by omega
      obtain ⟨hTcur, hTrem⟩ := hatT hcross
      have hchar := run_overflow_char cfg evs lks h sT hT e.slot e.recipe hTcur (by omega)
      have hi : e.day + k - totalDays cfg < (slotSt sT e.slot).remaining := by
        rw [hTrem]
        omega
      have hin := hchar.2 (e.day + k - totalDays cfg) hi
      refine ⟨_, hin, rfl, rfl, ?_, rfl, rfl⟩
      show totalDays cfg + (e.day + k - totalDays cfg) = e.day + k
      omega
  · intro e2 he2 hk2 hs2 hlo hhi
    by_cases hd2 : e2.day < totalDays cfg
    · have hk1 : 1 ≤ e2.day - e.day := by omega
      have hk2b : e2.day - e.day ≤ e.recipe.days - 1 := by omega
      have hk3 : e.day + (e2.day - e.day) < totalDays cfg := by omega
      obtain ⟨_, huniq⟩ := hmid (e2.day - e.day) hk1 hk2b hk3
      have heq2 := huniq e2 he2 hk2 hs2 (by omega)
      constructor
      · rw [heq2]
      · rw [heq2]
    · have hcross : totalDays cfg ≤ e.day + e.recipe.days := by omega
      obtain ⟨hTcur, hTrem⟩ := hatT hcross
      have hchar := run_overflow_char cfg evs lks h sT hT e.slot e.recipe hTcur (by omega)
      obtain ⟨hrec, hisnew, _, _⟩ := hchar.1 e2 he2 (by omega) hs2
      exact ⟨hrec, hisnew⟩
  · intro e2 he2 hk2 hs2 hday2
    by_cases hd2 : e.day + e.recipe.days < totalDays cfg
    · obtain ⟨sk, hsk, hskcur, hskrem⟩ :=
        htrack e.recipe.days (by omega) (by omega) (by omega)
      obtain ⟨sd2, s12, r2, hsd2, hs12, hstep2, hcur2, hin2, huniq2⟩ :=
        run_day_event cfg evs lks h e.slot (e.day + e.recipe.days) hd2
      have hsame : sd2 = sk := by
        rw [hsk] at hsd2
        exact (Except.ok.inj hsd2).symm
      subst hsame
      have hflagk : decide ((slotSt sd2 e.slot).remaining = 0) = true := by
        apply decide_eq_true
        rw [hskrem]
        omega
      have heq2 := huniq2 e2 he2 hk2 hs2 hday2
      have h3 := congrArg Event.isNew heq2
      rw [h3]
      exact hflagk
    · exfalso
      have hcross : totalDays cfg ≤ e.day + e.recipe.days := by omega
      obtain ⟨hTcur, hTrem⟩ := hatT hcross
      have hchar := run_overflow_char cfg evs lks h sT hT e.slot e.recipe hTcur (by omega)
      obtain ⟨_, _, _, hbound⟩ := hchar.1 e2 he2 (by omega) hs2
      rw [hTrem] at hbound
      omega

theorem claim_C2_witness :
    ∃ e2 ∈ runEvents cfgW, e2.kind = .meal ∧ e2.slot = Slot.lunch ∧ e2.day = 0 + 1 ∧
      e2.recipe = (⟨"a", 2⟩ : Recipe) ∧ e2.isNew = false :=
  (claim_C2 cfgW (runEvents cfgW) (runLookups cfgW)
    ⟨.meal, .lunch, 0, 1, ⟨"a", 2⟩, true⟩ rfl (by decide) rfl rfl (by decide) (by decide)).1
    1 (by decide) (by decide)

/-! ### Witnesses for C3 and C7 -/

theorem claim_C3_witness :
    get_next_recipe_avoiding_conflict cfgW.recipes none [] none 0
      = pickUniform 0 (firstNonemptyTier cfgW.recipes none [] none) :=
  (claim_C3 cfgW.recipes none [] none (by decide)).1 0

def cfgC7 : Config :=
  { recipes := [⟨"a", 1⟩], num_weeks := 1, start_date := 0,
    first_lunch_url := none, first_dinner_url := none, hasAllergies := false,
    rng := fun _ => 0 }

theorem claim_C7_witness :
    create_meal_prep_calendar cfgC7 = .error .needAtLeastTwoRecipes ∧
    runEvents cfgC7 = [] ∧ runLookups cfgC7 = [] ∧ runOk cfgC7 = false :=
  claim_C7 cfgC7 (by decide)


def cfgC8x : Config :=
  { recipes := [⟨"a", 1⟩, ⟨"b", 1⟩], num_weeks := 1, start_date := 0,
    first_lunch_url := some "a", first_dinner_url := some "zzz", hasAllergies := false,
    rng := fun _ => 0 }

theorem claim_C8_witness :
    create_meal_prep_calendar cfgC8x = .error .firstDinnerUrlNotFound ∧
    runEvents cfgC8x = [] ∧ runLookups cfgC8x = [] :=
  ((claim_C8 cfgC8x).2.1 "zzz" rfl rfl (by decide) (by decide)).2
    (Or.inr ⟨"a", ⟨"a", 1⟩, rfl, rfl⟩)

end MealPrep
